import Mathlib

/-!
Verification of the AIKOL publisher core against its specification.

The definitions below are a shallow embedding of the repository's source:
- the similarity engine (lib/risk.ts),
- the credential store (lib/crypto.ts) including a concrete model of
  AES-256-GCM and of Node's base64 codec,
- the publisher cycle (lib/publisher.ts),
- the dispatch planner (app/api/dispatch/route.ts).

Timestamps are embedded as integer milliseconds, bytes as natural numbers
below 256, and JavaScript strings as lists of characters.  Database effects
are embedded as explicit state records, and each external effect (HTTP
publish, OAuth refresh, secret decryption) is an oracle value carried in an
environment record, so that every branch of the source is represented.
-/

namespace AIKOL

/-- Models the JavaScript whitespace class used by the regexes in lib/risk.ts
(space, tab, line feed, carriage return, vertical tab, form feed). -/
def isSpaceChar (c : Char) : Bool :=
  c = ' ' || c = '\t' || c = '\n' || c = '\r' || c.toNat = 11 || c.toNat = 12

/-- Models String.prototype.toLowerCase character-wise (ASCII range; the
repository's topics, languages and tag names are ASCII). -/
def toLowerChar (c : Char) : Char :=
  c.toLower

/-- Splits off a URL scheme: the characters after a leading "http://" or
"https://" (the literal part of the regex https?:\/\/\S+). -/
def schemeSplit : List Char → Option (List Char)
  | 'h' :: 't' :: 't' :: 'p' :: 's' :: ':' :: '/' :: '/' :: r => some r
  | 'h' :: 't' :: 't' :: 'p' :: ':' :: '/' :: '/' :: r => some r
  | _ => none

/-- The \S+ part of the regex https?:\/\/\S+: requires at least one
non-whitespace character and consumes the maximal run of them, returning the
remainder. -/
def tailAfterUrl : List Char → Option (List Char)
  | [] => none
  | c :: rest =>
    if isSpaceChar c then none else some (rest.dropWhile (fun d => !isSpaceChar d))

/-- One match of the regex https?:\/\/\S+ anchored at the head of the list:
returns the remainder after the match. -/
def urlMatchRest (l : List Char) : Option (List Char) :=
  (schemeSplit l).bind tailAfterUrl

theorem length_dropWhile_le {α : Type} (p : α → Bool) (l : List α) :
    (l.dropWhile p).length ≤ l.length := by
  induction l with
  | nil => simp
  | cons c rest ih => by_cases h : p c <;> simp [List.dropWhile, h] <;> omega

theorem schemeSplit_length {l r : List Char} (h : schemeSplit l = some r) :
    r.length + 7 ≤ l.length := by
  unfold schemeSplit at h
  split at h <;> simp_all

theorem tailAfterUrl_length {l r : List Char} (h : tailAfterUrl l = some r) :
    r.length < l.length := by
  cases l with
  | nil => simp [tailAfterUrl] at h
  | cons c rest =>
    have h2 : isSpaceChar c = false ∧ rest.dropWhile (fun d => !isSpaceChar d) = r := by
      simpa [tailAfterUrl] using h
    have h3 := length_dropWhile_le (fun d => !isSpaceChar d) rest
    rw [h2.2] at h3
    simp only [List.length_cons]
    omega

theorem urlMatchRest_length {l r : List Char} (h : urlMatchRest l = some r) :
    r.length < l.length := by
  unfold urlMatchRest at h
  cases hs : schemeSplit l with
  | none => rw [hs] at h; exact absurd h (by simp)
  | some r0 =>
    rw [hs] at h
    simp only [Option.some_bind] at h
    have h1 := tailAfterUrl_length h
    have h2 := schemeSplit_length hs
    omega

/-- Models String.prototype.replace of /https?:\/\/\S+/g by a single space
(the first transformation in tokenize).  The fuel argument makes the
recursion structural so that the definition evaluates by kernel reduction;
each match consumes at least one character, so fuel equal to the input
length (as supplied by stripUrls below) never runs out. -/
def stripUrlsFuel : Nat → List Char → List Char
  | 0, l => l
  | _ + 1, [] => []
  | fuel + 1, c :: rest =>
    match urlMatchRest (c :: rest) with
    | some r => ' ' :: stripUrlsFuel fuel r
    | none => c :: stripUrlsFuel fuel rest

def stripUrls (l : List Char) : List Char :=
  stripUrlsFuel l.length l

/-- Models the replace of /[@#]/g by a space. -/
def atHashToSpace (c : Char) : Char :=
  if c = '@' || c = '#' then ' ' else c

/-- Models the replace of the non-letter non-digit class
/[^\p{L}\p{N}\s]/gu by a space (letters and digits approximated by ASCII
alphanumerics plus the CJK ideograph range the repository's content uses). -/
def isWordChar (c : Char) : Bool :=
  c.isAlphanum || (0x4E00 ≤ c.toNat && c.toNat ≤ 0x9FFF)

def nonWordToSpace (c : Char) : Char :=
  if isWordChar c || isSpaceChar c then c else ' '

/-- Splits into maximal whitespace-free runs.  JavaScript's
split(/\s+/) can additionally yield one empty leading token, which the
length-two filter in tokenize removes; this splitter omits empty tokens
directly, giving the same token list after that filter. -/
def splitOnSpacesAux : List Char → List Char → List (List Char)
  | [], cur => if cur.isEmpty then [] else [cur.reverse]
  | c :: rest, cur =>
    if isSpaceChar c then
      if cur.isEmpty then splitOnSpacesAux rest [] else cur.reverse :: splitOnSpacesAux rest []
    else splitOnSpacesAux rest (c :: cur)

def splitOnSpaces (l : List Char) : List (List Char) :=
  splitOnSpacesAux l []

/-- Embeds tokenize from lib/risk.ts: lowercase, strip URLs, drop @ and #,
replace non-letter/non-digit characters by spaces, split on whitespace and
keep tokens of length at least two. -/
def tokenize (s : List Char) : List (List Char) :=
  (splitOnSpaces (((stripUrls (s.map toLowerChar)).map atHashToSpace).map nonWordToSpace)).filter
    (fun t => 1 < t.length)

/-- The JavaScript Set built over the token list. -/
def tokenSet (s : List Char) : Finset (List Char) :=
  (tokenize s).toFinset

/-- Embeds jaccardSimilarity from lib/risk.ts, with the IEEE division of the
source embedded as exact rational division. -/
def jaccardSimilarity (a b : List Char) : ℚ :=
  let sa := tokenSet a
  let sb := tokenSet b
  if sa.card = 0 ∨ sb.card = 0 then 0
  else
    let inter := (sa ∩ sb).card
    let union := sa.card + sb.card - inter
    if union = 0 then 0 else (inter : ℚ) / (union : ℚ)

/-- The default threshold argument of isTooSimilar. -/
def similarityThreshold : ℚ := 86 / 100

/-- Embeds isTooSimilar from lib/risk.ts at the default threshold. -/
def isTooSimilar (input : List Char) (existing : List (List Char)) : Bool :=
  existing.any (fun item => similarityThreshold ≤ jaccardSimilarity input item)

theorem tokenSet_card_eq_zero {a : List Char} (h : tokenize a = []) :
    (tokenSet a).card = 0 := by
  simp [tokenSet, h]

/-- C9: the similarity is symmetric, reflexive with value one on inputs with
at least one token, and zero as soon as either side has no token. -/
theorem c9_similarity_algebra (a b : List Char) :
    jaccardSimilarity a b = jaccardSimilarity b a
    ∧ (tokenize a ≠ [] → jaccardSimilarity a a = 1)
    ∧ ((tokenize a = [] ∨ tokenize b = []) → jaccardSimilarity a b = 0) := by
  refine ⟨?_, ?_, ?_⟩
  · simp only [jaccardSimilarity]
    rw [Finset.inter_comm, Nat.add_comm (tokenSet a).card]
    by_cases h1 : (tokenSet a).card = 0 ∨ (tokenSet b).card = 0
    · rw [if_pos h1, if_pos h1.symm]
    · rw [if_neg h1,
        if_neg (fun hc : (tokenSet b).card = 0 ∨ (tokenSet a).card = 0 => h1 hc.symm)]
  · intro ha
    have hcard : (tokenSet a).card ≠ 0 := by
      simp only [tokenSet, ne_eq, Finset.card_eq_zero, List.toFinset_eq_empty_iff]
      exact ha
    simp only [jaccardSimilarity, Finset.inter_self]
    have hunion : (tokenSet a).card + (tokenSet a).card - (tokenSet a).card
        = (tokenSet a).card := by omega
    rw [if_neg (by tauto), hunion, if_neg hcard]
    exact div_self (by exact_mod_cast hcard)
  · intro h
    simp only [jaccardSimilarity]
    rcases h with h | h
    · rw [if_pos (Or.inl (tokenSet_card_eq_zero h))]
    · rw [if_pos (Or.inr (tokenSet_card_eq_zero h))]

/-- Witness for C9 at concrete inputs. -/
theorem c9_similarity_algebra_witness :
    jaccardSimilarity "ab".toList "ab".toList = 1
    ∧ jaccardSimilarity "ab".toList "".toList = 0 :=
  ⟨(c9_similarity_algebra "ab".toList "ab".toList).2.1 (by decide),
   (c9_similarity_algebra "ab".toList "".toList).2.2 (Or.inr (by decide))⟩

/-! ### Decimal rendering of numbers

Models the JavaScript template-literal rendering of a non-negative number
(as in the quota messages), with fuel so the recursion is structural. -/

def digitCharM (d : Nat) : Char :=
  Char.ofNat (48 + d)

def natCharsFuel : Nat → Nat → List Char
  | 0, _ => []
  | fuel + 1, n => if n < 10 then [digitCharM n] else natCharsFuel fuel (n / 10) ++ [digitCharM (n % 10)]

def natChars (n : Nat) : List Char :=
  natCharsFuel (n + 1) n

/-- Models String.prototype.includes (substring containment). -/
def containsSeq (pat l : List Char) : Bool :=
  (List.range (l.length + 1)).any (fun i => ((l.drop i).take pat.length) == pat)

theorem natCharsFuel_digits {fuel n : Nat} {c : Char} (h : c ∈ natCharsFuel fuel n) :
    ∃ d, d ≤ 9 ∧ c = digitCharM d := by
  induction fuel generalizing n with
  | zero => simp [natCharsFuel] at h
  | succ fuel ih =>
    unfold natCharsFuel at h
    by_cases hn : n < 10
    · rw [if_pos hn] at h
      simp only [List.mem_singleton] at h
      exact ⟨n, by omega, h⟩
    · rw [if_neg hn] at h
      rcases List.mem_append.mp h with h2 | h2
      · exact ih h2
      · simp only [List.mem_singleton] at h2
        exact ⟨n % 10, by omega, h2⟩

theorem containsSeq_chars {pat l : List Char} (h : containsSeq pat l = true) :
    ∀ c ∈ pat, c ∈ l := by
  intro c hc
  unfold containsSeq at h
  rcases List.any_eq_true.mp h with ⟨i, _, hi⟩
  have heq : (l.drop i).take pat.length = pat := by simpa using hi
  have h1 : c ∈ (l.drop i).take pat.length := by rw [heq]; exact hc
  exact List.drop_subset i l (List.take_subset _ _ h1)

/-! ### Data model of the publisher (lib/publisher.ts and the schema)

Enumerations and rows mirror the Prisma schema; timestamps are integer
milliseconds; encrypted columns hold the sealed text. -/

inductive AccountStatus
  | ACTIVE | TOKEN_EXPIRED | RATE_LIMITED | SUSPENDED | DISCONNECTED
deriving DecidableEq, Repr

inductive ScheduleStatus
  | PENDING | PROCESSING | POSTED | FAILED | BLOCKED | CANCELED
deriving DecidableEq, Repr

inductive AttemptStatus
  | SUCCESS | FAIL | BLOCKED | RETRY_SCHEDULED
deriving DecidableEq, Repr

inductive ProxyProtocol
  | HTTP | HTTPS
deriving DecidableEq, Repr

structure Account where
  status : AccountStatus
  healthMessage : Option (List Char)
  lastPostedAt : Option Int
  minIntervalMinutes : Int
  dailyPostLimit : Nat
  monthlyPostLimit : Nat
  accessTokenEncrypted : List Char
  refreshTokenEncrypted : Option (List Char)
  tokenExpiresAt : Option Int
  proxyEnabled : Bool
  proxyProtocol : Option ProxyProtocol
  proxyHost : Option (List Char)
  proxyPort : Option Nat
  proxyUsername : Option (List Char)
  proxyPasswordEncrypted : Option (List Char)
deriving DecidableEq, Repr

structure Schedule where
  accountId : List Char
  status : ScheduleStatus
  plannedAt : Int
  attemptCount : Nat
  maxAttempts : Nat
  nextAttemptAt : Option Int
  postedAt : Option Int
  externalPostId : Option (List Char)
  lastError : Option (List Char)
  variantBody : List Char
deriving DecidableEq, Repr

structure AttemptRow where
  accountId : List Char
  attemptNo : Nat
  status : AttemptStatus
  requestedAt : Int
  finishedAt : Int
  httpStatus : Option Int
  errorCode : Option (List Char)
  errorMessage : Option (List Char)
  rateLimitLimit : Option Int
  rateLimitRemaining : Option Int
  rateLimitResetAt : Option Int
deriving DecidableEq, Repr

structure XRateLimit where
  limit : Option Int
  remaining : Option Int
  resetAt : Option Int
deriving DecidableEq, Repr

structure XPublishResult where
  ok : Bool
  postId : Option (List Char)
  status : Int
  errorCode : Option (List Char)
  errorMessage : Option (List Char)
  rateLimit : XRateLimit
deriving DecidableEq, Repr

/-- Outcome of the refreshAccessTokenOnX call as observed by processSchedule:
a thrown exception anywhere in the try block, a failure result, or a success
carrying the new tokens. -/
inductive RefreshOutcome
  | threw
  | failed (status : Int) (errorMessage : List Char)
  | succeeded (accessToken : List Char) (refreshToken : Option (List Char)) (expiresAt : Option Int)
deriving DecidableEq, Repr

/-- Oracle values for the effects one processSchedule invocation performs:
the clock, the two decryptSecret outcomes, the refresh call, the two quota
count queries, the shared recent-bodies corpus and the publish call. -/
structure Env where
  now : Int
  proxyPwDecrypt : Except Unit (List Char)
  accessTokenDecrypt : Except Unit (List Char)
  refresh : RefreshOutcome
  dayPosts : Nat
  monthPosts : Nat
  recentBodies : List (List Char)
  publish : XPublishResult
deriving Repr

inductive Outcome
  | posted | failed | blocked | rescheduled
deriving DecidableEq, Repr

/-- The rows written (and effects performed) by one processSchedule call:
the updated schedule row, the updated account row, the appended
PublishAttempt rows, the number of appended RateLimitSnapshot and PostMetric
rows, and whether the publish / refresh HTTP calls were made. -/
structure StepResult where
  outcome : Outcome
  sched : Schedule
  acct : Account
  newAttempts : List AttemptRow
  newSnapshots : Nat
  newMetrics : Nat
  publishCalled : Bool
  refreshCalled : Bool
deriving Repr

def RETRY_MINUTES : List Int := [2, 10, 30]

def addMinutes (t : Int) (minutes : Int) : Int :=
  t + minutes * 60000

/-- Embeds computeRetryAt from lib/publisher.ts. -/
def computeRetryAt (now : Int) (attemptCount : Nat) (resetAt : Option Int) : Int :=
  let idx := max 0 (min (RETRY_MINUTES.length - 1) (attemptCount - 1))
  let retryByBackoff := addMinutes now (RETRY_MINUTES.getD idx 0)
  match resetAt with
  | some r => if r > retryByBackoff then r else retryByBackoff
  | none => retryByBackoff

structure AccountProxyConfig where
  protocol : List Char
  host : List Char
  port : Nat
  username : Option (List Char)
  password : Option (List Char)
deriving DecidableEq, Repr

/-- Embeds mapProxyProtocol. -/
def mapProxyProtocol : Option ProxyProtocol → Option (List Char)
  | none => none
  | some .HTTP => some "http".toList
  | some .HTTPS => some "https".toList

def proxyIncompleteMsg : List Char :=
  "Proxy is enabled but proxy settings are incomplete.".toList

def proxyPwDecryptFailMsg : List Char :=
  "Cannot decrypt proxy password. Check TOKEN_ENCRYPTION_KEY.".toList

/-- Embeds resolveProxyConfig.  The falsiness tests of JavaScript make an
empty host string and port zero count as missing. -/
def resolveProxyConfig (a : Account) (env : Env) : Except (List Char) (Option AccountProxyConfig) :=
  if !a.proxyEnabled then .ok none
  else
    match mapProxyProtocol a.proxyProtocol with
    | none => .error proxyIncompleteMsg
    | some protocol =>
      match a.proxyHost, a.proxyPort with
      | some host, some port =>
        if host.isEmpty || port == 0 then .error proxyIncompleteMsg
        else
          match a.proxyPasswordEncrypted with
          | some _ =>
            match env.proxyPwDecrypt with
            | .error _ => .error proxyPwDecryptFailMsg
            | .ok pw => .ok (some ⟨protocol, host, port, a.proxyUsername, some pw⟩)
          | none => .ok (some ⟨protocol, host, port, a.proxyUsername, none⟩)
      | _, _ => .error proxyIncompleteMsg

def dailyQuotaMsg (limit : Nat) : List Char :=
  "Daily quota reached (".toList ++ natChars limit ++ ").".toList

def monthlyQuotaMsg (limit : Nat) : List Char :=
  "Monthly quota reached (".toList ++ natChars limit ++ ").".toList

def tooSimilarMsg : List Char :=
  "Content too similar to recent published posts.".toList

inductive RiskOutcome
  | reschedule (at_ : Int)
  | block (reason : List Char)
  | proceed
deriving DecidableEq, Repr

def riskQuotaChecks (a : Account) (body : List Char) (env : Env) : RiskOutcome :=
  if a.dailyPostLimit ≤ env.dayPosts then .block (dailyQuotaMsg a.dailyPostLimit)
  else if a.monthlyPostLimit ≤ env.monthPosts then .block (monthlyQuotaMsg a.monthlyPostLimit)
  else if isTooSimilar body env.recentBodies then .block tooSimilarMsg
  else .proceed

/-- Embeds applyRiskGuards: minimum-interval pacing first, then the daily
and monthly quota counts, then the similarity guard. -/
def applyRiskGuards (a : Account) (body : List Char) (env : Env) : RiskOutcome :=
  match a.lastPostedAt with
  | some lp =>
    if addMinutes lp a.minIntervalMinutes > env.now then .reschedule (addMinutes lp a.minIntervalMinutes)
    else riskQuotaChecks a body env
  | none => riskQuotaChecks a body env

def tokenExpiredMissingMsg : List Char :=
  "Token expired and refresh token is missing.".toList

def tokenRefreshFailedMsg (errorMessage : List Char) : List Char :=
  "Token refresh failed: ".toList ++ errorMessage

def tokenRefreshThrewMsg : List Char :=
  "Token expired and refresh flow failed unexpectedly.".toList

def accessDecryptFailMsg : List Char :=
  "Cannot decrypt access token. Fix TOKEN_ENCRYPTION_KEY.".toList

def minIntervalMsg (minutes : Int) : List Char :=
  "Rescheduled to respect min interval (".toList ++ natChars minutes.toNat ++ "m).".toList

def httpStatusMsg (status : Int) : List Char :=
  "HTTP ".toList ++ natChars status.toNat

/-- Embeds blockSchedule: one transaction that marks the schedule BLOCKED,
optionally demotes the account, and appends a BLOCKED attempt row. -/
def settleBlock (s : Schedule) (aStore : Account) (reason : List Char)
    (accountStatus : Option AccountStatus) (env : Env) (refreshCalled : Bool) : StepResult :=
  { outcome := .blocked
    sched := { s with status := .BLOCKED, lastError := some reason, nextAttemptAt := none }
    acct :=
      match accountStatus with
      | some st => { aStore with status := st, healthMessage := some reason }
      | none => aStore
    newAttempts := [{ accountId := s.accountId, attemptNo := s.attemptCount + 1,
                      status := .BLOCKED, requestedAt := env.now, finishedAt := env.now,
                      httpStatus := none, errorCode := none, errorMessage := some reason,
                      rateLimitLimit := none, rateLimitRemaining := none, rateLimitResetAt := none }]
    newSnapshots := 0
    newMetrics := 0
    publishCalled := false
    refreshCalled := refreshCalled }

/-- Embeds the reschedule branch of processSchedule (pacing guard hit). -/
def settleReschedule (s : Schedule) (a aStore : Account) (rescheduledAt : Int)
    (refreshCalled : Bool) : StepResult :=
  { outcome := .rescheduled
    sched := { s with
               status := .PENDING, plannedAt := rescheduledAt, nextAttemptAt := none,
               lastError := some (minIntervalMsg a.minIntervalMinutes) }
    acct := aStore
    newAttempts := []
    newSnapshots := 0
    newMetrics := 0
    publishCalled := false
    refreshCalled := refreshCalled }

/-- Embeds the success transaction of processSchedule: schedule POSTED,
account ACTIVE with lastPostedAt, one SUCCESS attempt row, one rate-limit
snapshot and one zero-initialized PostMetric row, written together. -/
def settleSuccess (s : Schedule) (aStore : Account) (r : XPublishResult) (env : Env)
    (refreshCalled : Bool) : StepResult :=
  { outcome := .posted
    sched := { s with
               status := .POSTED, postedAt := some env.now, externalPostId := r.postId,
               attemptCount := s.attemptCount + 1, lastError := none, nextAttemptAt := none }
    acct := { aStore with status := .ACTIVE, healthMessage := none, lastPostedAt := some env.now }
    newAttempts := [{ accountId := s.accountId, attemptNo := s.attemptCount + 1,
                      status := .SUCCESS, requestedAt := env.now, finishedAt := env.now,
                      httpStatus := some r.status, errorCode := none, errorMessage := none,
                      rateLimitLimit := r.rateLimit.limit,
                      rateLimitRemaining := r.rateLimit.remaining,
                      rateLimitResetAt := r.rateLimit.resetAt }]
    newSnapshots := 1
    newMetrics := 1
    publishCalled := true
    refreshCalled := refreshCalled }

/-- Embeds the failure-mapping settlement of processSchedule (non-2xx
publish result): retry/block decision, back-off, account status mapping,
FAIL attempt row and rate-limit snapshot, written together. -/
def settleFailure (s : Schedule) (a aStore : Account) (r : XPublishResult) (env : Env)
    (refreshCalled : Bool) : StepResult :=
  let attemptNo := s.attemptCount + 1
  let shouldForceBlock := r.status == 401 || r.status == 403
  let canRetry := !shouldForceBlock && attemptNo < s.maxAttempts
  let nextAttemptAt :=
    if canRetry then some (computeRetryAt env.now attemptNo r.rateLimit.resetAt) else none
  let nextStatus := if canRetry then ScheduleStatus.FAILED else ScheduleStatus.BLOCKED
  let accountStatus :=
    if r.status == 429 then AccountStatus.RATE_LIMITED
    else if r.status == 401 then AccountStatus.TOKEN_EXPIRED
    else if r.status == 403 then AccountStatus.SUSPENDED
    else a.status
  let errMsg := r.errorMessage.getD (httpStatusMsg r.status)
  { outcome := if canRetry then .failed else .blocked
    sched := { s with
               status := nextStatus, attemptCount := attemptNo,
               nextAttemptAt := nextAttemptAt, lastError := some errMsg }
    acct := { aStore with status := accountStatus, healthMessage := some errMsg }
    newAttempts := [{ accountId := s.accountId, attemptNo := attemptNo,
                      status := .FAIL, requestedAt := env.now, finishedAt := env.now,
                      httpStatus := some r.status, errorCode := r.errorCode,
                      errorMessage := r.errorMessage,
                      rateLimitLimit := r.rateLimit.limit,
                      rateLimitRemaining := r.rateLimit.remaining,
                      rateLimitResetAt := r.rateLimit.resetAt }]
    newSnapshots := 1
    newMetrics := 0
    publishCalled := true
    refreshCalled := refreshCalled }

/-- The publish step and its settlement (the tail of processSchedule).
`a` is the in-memory account snapshot the source reads risk fields from;
`aStore` is the current state of the account row (they differ after a
successful token refresh). -/
def publishPhase (s : Schedule) (a aStore : Account) (env : Env) (refreshCalled : Bool) :
    StepResult :=
  if env.publish.ok then settleSuccess s aStore env.publish env refreshCalled
  else settleFailure s a aStore env.publish env refreshCalled

def tokenExpiredPat : List Char := "Token expired".toList

/-- The risk gate and everything after it (the tail of processSchedule once
credentials are in hand). -/
def riskPhase (s : Schedule) (a aStore : Account) (env : Env) (refreshCalled : Bool) :
    StepResult :=
  match applyRiskGuards a s.variantBody env with
  | .block reason =>
    settleBlock s aStore reason
      (if containsSeq tokenExpiredPat reason then some .TOKEN_EXPIRED else none) env refreshCalled
  | .reschedule rescheduledAt => settleReschedule s a aStore rescheduledAt refreshCalled
  | .proceed => publishPhase s a aStore env refreshCalled

/-- The account row as updated by a successful token refresh (status ACTIVE,
cleared health message, re-sealed tokens, new expiry). -/
def refreshedAccount (a : Account) (accessToken : List Char) (refreshToken : Option (List Char))
    (expiresAt : Option Int) : Account :=
  { a with
    accessTokenEncrypted := accessToken
    refreshTokenEncrypted :=
      match refreshToken with
      | some rt => some rt
      | none => a.refreshTokenEncrypted
    tokenExpiresAt := expiresAt
    status := .ACTIVE
    healthMessage := none }

/-- The token-availability test of processSchedule: a set expiry that is not
in the future. -/
def tokenExpired (a : Account) (now : Int) : Bool :=
  match a.tokenExpiresAt with
  | some t => t ≤ now
  | none => false

/-- Embeds processSchedule from lib/publisher.ts: proxy resolution, token
availability (with refresh), the risk gate, then publish and settlement. -/
def processSchedule (s : Schedule) (a : Account) (env : Env) : StepResult :=
  match resolveProxyConfig a env with
  | .error reason => settleBlock s a reason none env false
  | .ok _ =>
    if tokenExpired a env.now then
      match a.refreshTokenEncrypted with
      | none => settleBlock s a tokenExpiredMissingMsg (some .TOKEN_EXPIRED) env false
      | some _ =>
        match env.refresh with
        | .threw => settleBlock s a tokenRefreshThrewMsg (some .TOKEN_EXPIRED) env true
        | .failed _ msg =>
          settleBlock s a (tokenRefreshFailedMsg msg) (some .TOKEN_EXPIRED) env true
        | .succeeded tok rt exp =>
          riskPhase s a (refreshedAccount a tok rt exp) env true
    else
      match env.accessTokenDecrypt with
      | .error _ => settleBlock s a accessDecryptFailMsg none env false
      | .ok _ => riskPhase s a a env false

/-! ### Shape of a single processSchedule step

Every branch of processSchedule settles the schedule in one of five ways;
this classification drives the reachability invariants below. -/

def stepShape (s : Schedule) (out : StepResult) : Prop :=
  out.sched.maxAttempts = s.maxAttempts ∧
  ((out.sched.status = .BLOCKED ∧ out.sched.attemptCount = s.attemptCount
      ∧ (∀ row ∈ out.newAttempts, row.status = .BLOCKED) ∧ out.newMetrics = 0)
    ∨ (out.sched.status = .PENDING ∧ out.sched.attemptCount = s.attemptCount
      ∧ out.newAttempts = [] ∧ out.newMetrics = 0)
    ∨ (out.sched.status = .POSTED ∧ out.sched.attemptCount = s.attemptCount + 1
      ∧ out.sched.postedAt ≠ none
      ∧ (∃ row, out.newAttempts = [row] ∧ row.status = .SUCCESS
          ∧ row.attemptNo = s.attemptCount + 1)
      ∧ out.newMetrics = 1)
    ∨ (out.sched.status = .FAILED ∧ out.sched.attemptCount = s.attemptCount + 1
      ∧ s.attemptCount + 1 < s.maxAttempts
      ∧ (∀ row ∈ out.newAttempts, row.status = .FAIL) ∧ out.newMetrics = 0)
    ∨ (out.sched.status = .BLOCKED ∧ out.sched.attemptCount = s.attemptCount + 1
      ∧ (∀ row ∈ out.newAttempts, row.status = .FAIL) ∧ out.newMetrics = 0))

theorem settleBlock_shape (s : Schedule) (aSt : Account) (reason : List Char)
    (ost : Option AccountStatus) (env : Env) (rc : Bool) :
    stepShape s (settleBlock s aSt reason ost env rc) := by
  refine ⟨rfl, Or.inl ⟨rfl, rfl, ?_, rfl⟩⟩
  intro row hr
  simp only [settleBlock, List.mem_singleton] at hr
  rw [hr]

theorem settleReschedule_shape (s : Schedule) (a aSt : Account) (t : Int) (rc : Bool) :
    stepShape s (settleReschedule s a aSt t rc) :=
  ⟨rfl, Or.inr (Or.inl ⟨rfl, rfl, rfl, rfl⟩)⟩

theorem settleSuccess_shape (s : Schedule) (aSt : Account) (r : XPublishResult) (env : Env)
    (rc : Bool) :
    stepShape s (settleSuccess s aSt r env rc) := by
  refine ⟨rfl, Or.inr (Or.inr (Or.inl ⟨rfl, rfl, by simp [settleSuccess], ?_, rfl⟩))⟩
  exact ⟨_, rfl, rfl, rfl⟩

theorem settleFailure_shape (s : Schedule) (a aSt : Account) (r : XPublishResult) (env : Env)
    (rc : Bool) :
    stepShape s (settleFailure s a aSt r env rc) := by
  cases hcr : (!(r.status == 401 || r.status == 403) && decide (s.attemptCount + 1 < s.maxAttempts)) with
  | true =>
    refine ⟨rfl, Or.inr (Or.inr (Or.inr (Or.inl ⟨?_, rfl, ?_, ?_, rfl⟩)))⟩
    · simp [settleFailure, hcr]
      simp at hcr
      tauto
    · have h2 := (Bool.and_eq_true _ _).mp hcr
      exact of_decide_eq_true h2.2
    · intro row hr
      simp only [settleFailure, List.mem_singleton] at hr
      rw [hr]
  | false =>
    refine ⟨rfl, Or.inr (Or.inr (Or.inr (Or.inr ⟨?_, rfl, ?_, rfl⟩)))⟩
    · simp [settleFailure, hcr]
      simp at hcr
      tauto
    · intro row hr
      simp only [settleFailure, List.mem_singleton] at hr
      rw [hr]

theorem riskPhase_shape (s : Schedule) (a aSt : Account) (env : Env) (rc : Bool) :
    stepShape s (riskPhase s a aSt env rc) := by
  unfold riskPhase
  cases applyRiskGuards a s.variantBody env with
  | block reason => exact settleBlock_shape _ _ _ _ _ _
  | reschedule t => exact settleReschedule_shape _ _ _ _ _
  | proceed =>
    unfold publishPhase
    cases env.publish.ok with
    | true => exact settleSuccess_shape _ _ _ _ _
    | false => exact settleFailure_shape _ _ _ _ _ _

theorem processSchedule_shape (s : Schedule) (a : Account) (env : Env) :
    stepShape s (processSchedule s a env) := by
  unfold processSchedule
  cases resolveProxyConfig a env with
  | error reason => exact settleBlock_shape _ _ _ _ _ _
  | ok px =>
    cases tokenExpired a env.now with
    | true =>
      simp only [if_true]
      cases a.refreshTokenEncrypted with
      | none => exact settleBlock_shape _ _ _ _ _ _
      | some rte =>
        cases env.refresh with
        | threw => exact settleBlock_shape _ _ _ _ _ _
        | failed st msg => exact settleBlock_shape _ _ _ _ _ _
        | succeeded tok rt exp => exact riskPhase_shape _ _ _ _ _
    | false =>
      simp only [Bool.false_eq_true, if_false]
      cases env.accessTokenDecrypt with
      | error e => exact settleBlock_shape _ _ _ _ _ _
      | ok tok => exact riskPhase_shape _ _ _ _ _

/-! ### Reachability by publisher-cycle steps (selection plus settlement)

One database-visible state of a schedule together with its account, its
PublishAttempt rows and its PostMetric rows; a step is the processing of the
schedule by a cycle in which it was selected as due. -/

structure DBState where
  sched : Schedule
  acct : Account
  attempts : List AttemptRow
  metrics : Nat

/-- The selection predicate of runPublisherCycle: PENDING and planned, or
FAILED and ripe for retry. -/
def dueAt (s : Schedule) (now : Int) : Prop :=
  (s.status = .PENDING ∧ s.plannedAt ≤ now)
    ∨ (s.status = .FAILED ∧ ∃ t, s.nextAttemptAt = some t ∧ t ≤ now)

/-- The store after the selected schedule is processed: settlement rows are
appended and the schedule and account rows replaced, atomically. -/
def applyStep (st : DBState) (env : Env) : DBState :=
  let out := processSchedule st.sched st.acct env
  { sched := out.sched, acct := out.acct,
    attempts := st.attempts ++ out.newAttempts,
    metrics := st.metrics + out.newMetrics }

/-- All states reachable from a starting state by publisher cycles, each
step processing the schedule only when it is due. -/
inductive Reachable (start : DBState) : DBState → Prop
  | refl : Reachable start start
  | step (st2 : DBState) (env : Env) (h : Reachable start st2)
      (hdue : dueAt st2.sched env.now) : Reachable start (applyStep st2 env)

theorem applyStep_sched (st : DBState) (env : Env) :
    (applyStep st env).sched = (processSchedule st.sched st.acct env).sched := rfl

theorem applyStep_acct (st : DBState) (env : Env) :
    (applyStep st env).acct = (processSchedule st.sched st.acct env).acct := rfl

theorem applyStep_attempts (st : DBState) (env : Env) :
    (applyStep st env).attempts
      = st.attempts ++ (processSchedule st.sched st.acct env).newAttempts := rfl

theorem applyStep_metrics (st : DBState) (env : Env) :
    (applyStep st env).metrics
      = st.metrics + (processSchedule st.sched st.acct env).newMetrics := rfl

/-- The SUCCESS attempt rows among a list of attempt rows. -/
def successRows (l : List AttemptRow) : List AttemptRow :=
  l.filter (fun r => r.status == .SUCCESS)

theorem successRows_nil_of_status {l : List AttemptRow} {st : AttemptStatus}
    (hst : st ≠ .SUCCESS) (h : ∀ row ∈ l, row.status = st) : successRows l = [] := by
  apply List.filter_eq_nil_iff.mpr
  intro row hr
  have := h row hr
  simp [this, hst]

/-- C3: starting from a fresh schedule (no attempts consumed, at least one
allowed), every state reachable by publisher-cycle steps keeps
attemptCount at most maxAttempts: the cycle selects only PENDING or FAILED
schedules, increments the counter at most once per step, and leaves a
schedule FAILED only while the counter is strictly below the budget. -/
theorem c3_attempt_count_bounded (st0 st : DBState) (h : Reachable st0 st)
    (h0 : st0.sched.attemptCount = 0) (hmax : 1 ≤ st0.sched.maxAttempts) :
    st.sched.attemptCount ≤ st.sched.maxAttempts := by
  have main : st.sched.attemptCount ≤ st.sched.maxAttempts
      ∧ ((st.sched.status = .PENDING ∨ st.sched.status = .FAILED) →
          st.sched.attemptCount < st.sched.maxAttempts) := by
    induction h with
    | refl => exact ⟨by omega, fun _ => by omega⟩
    | step st2 env hr hdue ih =>
      obtain ⟨hmaxEq, hshape⟩ := processSchedule_shape st2.sched st2.acct env
      have hlt : st2.sched.attemptCount < st2.sched.maxAttempts := by
        rcases hdue with ⟨hp, _⟩ | ⟨hf, _⟩
        · exact ih.2 (Or.inl hp)
        · exact ih.2 (Or.inr hf)
      rcases hshape with ⟨hs, hc, _, _⟩ | ⟨hs, hc, _, _⟩ | ⟨hs, hc, _, _, _⟩
        | ⟨hs, hc, hlt2, _, _⟩ | ⟨hs, hc, _, _⟩ <;>
        refine ⟨by rw [applyStep_sched, hc, hmaxEq]; omega, fun hst => ?_⟩ <;>
        rw [applyStep_sched, hc, hmaxEq] <;>
        rw [applyStep_sched] at hst <;>
        rcases hst with hst | hst <;>
        rw [hs] at hst <;>
        first
          | exact absurd hst (by decide)
          | omega
  exact main.1

/-- C2: starting from a schedule with no SUCCESS attempt, no PostMetric row
and status PENDING or FAILED, every reachable state in which the schedule is
POSTED has a non-null postedAt, exactly one SUCCESS attempt row whose
attemptNo equals the schedule's attemptCount, and exactly one PostMetric row
(all appended by the single success settlement, applyStep being one
transaction); and a POSTED schedule is never due again. -/
theorem c2_posted_audit (st0 st : DBState) (h : Reachable st0 st)
    (hstat : st0.sched.status = .PENDING ∨ st0.sched.status = .FAILED)
    (hsucc : successRows st0.attempts = [])
    (hmet : st0.metrics = 0) :
    (st.sched.status = .POSTED →
      st.sched.postedAt ≠ none
      ∧ (∃ row, successRows st.attempts = [row] ∧ row.status = .SUCCESS
          ∧ row.attemptNo = st.sched.attemptCount)
      ∧ st.metrics = 1)
    ∧ (st.sched.status = .POSTED → ∀ now, ¬ dueAt st.sched now) := by
  have hnp : st0.sched.status ≠ .POSTED := by
    rcases hstat with h1 | h1 <;> rw [h1] <;> decide
  have main : (st.sched.status ≠ .POSTED → successRows st.attempts = [] ∧ st.metrics = 0)
      ∧ (st.sched.status = .POSTED →
          st.sched.postedAt ≠ none
          ∧ (∃ row, successRows st.attempts = [row] ∧ row.status = .SUCCESS
              ∧ row.attemptNo = st.sched.attemptCount)
          ∧ st.metrics = 1) := by
    clear hstat
    induction h with
    | refl => exact ⟨fun _ => ⟨hsucc, hmet⟩, fun hp => absurd hp hnp⟩
    | step st2 env hr hdue ih =>
      have hnp2 : st2.sched.status ≠ .POSTED := by
        rcases hdue with ⟨hp, _⟩ | ⟨hp, _⟩ <;> rw [hp] <;> decide
      obtain ⟨hold, hmet2⟩ := ih.1 hnp2
      obtain ⟨hmaxEq, hshape⟩ := processSchedule_shape st2.sched st2.acct env
      rcases hshape with ⟨hs, hc, hrows, hm⟩ | ⟨hs, hc, hrows, hm⟩
        | ⟨hs, hc, hpa, ⟨row, hrow, hrs, hrn⟩, hm⟩ | ⟨hs, hc, _, hrows, hm⟩
        | ⟨hs, hc, hrows, hm⟩
      · refine ⟨fun _ => ?_, fun hp => ?_⟩
        · rw [applyStep_attempts, applyStep_metrics]
          rw [successRows, List.filter_append, ← successRows, ← successRows, hold,
            successRows_nil_of_status (by decide) hrows, hmet2, hm]
          exact ⟨rfl, rfl⟩
        · rw [applyStep_sched, hs] at hp
          exact absurd hp (by decide)
      · refine ⟨fun _ => ?_, fun hp => ?_⟩
        · rw [applyStep_attempts, applyStep_metrics]
          rw [successRows, List.filter_append, ← successRows, ← successRows, hold, hrows,
            hmet2, hm]
          exact ⟨rfl, rfl⟩
        · rw [applyStep_sched, hs] at hp
          exact absurd hp (by decide)
      · refine ⟨fun hnp3 => ?_, fun _ => ?_⟩
        · rw [applyStep_sched, hs] at hnp3
          exact absurd rfl hnp3
        · refine ⟨?_, ⟨row, ?_, hrs, ?_⟩, ?_⟩
          · rw [applyStep_sched]
            exact hpa
          · rw [applyStep_attempts]
            rw [successRows, List.filter_append, ← successRows, ← successRows, hold, hrow]
            simp [successRows, hrs]
          · rw [applyStep_sched, hc]
            exact hrn
          · rw [applyStep_metrics, hmet2, hm]
      · refine ⟨fun _ => ?_, fun hp => ?_⟩
        · rw [applyStep_attempts, applyStep_metrics]
          rw [successRows, List.filter_append, ← successRows, ← successRows, hold,
            successRows_nil_of_status (by decide) hrows, hmet2, hm]
          exact ⟨rfl, rfl⟩
        · rw [applyStep_sched, hs] at hp
          exact absurd hp (by decide)
      · refine ⟨fun _ => ?_, fun hp => ?_⟩
        · rw [applyStep_attempts, applyStep_metrics]
          rw [successRows, List.filter_append, ← successRows, ← successRows, hold,
            successRows_nil_of_status (by decide) hrows, hmet2, hm]
          exact ⟨rfl, rfl⟩
        · rw [applyStep_sched, hs] at hp
          exact absurd hp (by decide)
  refine ⟨main.2, fun hp now hdue2 => ?_⟩
  rcases hdue2 with ⟨h1, _⟩ | ⟨h1, _⟩ <;> rw [hp] at h1 <;> exact absurd h1 (by decide)

/-- A concrete healthy account used by the witnesses. -/
def sampleAccount : Account :=
  { status := .ACTIVE, healthMessage := none, lastPostedAt := none,
    minIntervalMinutes := 30, dailyPostLimit := 10, monthlyPostLimit := 100,
    accessTokenEncrypted := "enc".toList, refreshTokenEncrypted := none,
    tokenExpiresAt := none, proxyEnabled := false, proxyProtocol := none,
    proxyHost := none, proxyPort := none, proxyUsername := none,
    proxyPasswordEncrypted := none }

/-- A concrete fresh pending schedule used by the witnesses. -/
def sampleSchedule : Schedule :=
  { accountId := "a1".toList, status := .PENDING, plannedAt := 0,
    attemptCount := 0, maxAttempts := 3, nextAttemptAt := none,
    postedAt := none, externalPostId := none, lastError := none,
    variantBody := "hello world".toList }

def sampleState : DBState :=
  { sched := sampleSchedule, acct := sampleAccount, attempts := [], metrics := 0 }

/-- Witness for C3 at a concrete starting state. -/
theorem c3_attempt_count_bounded_witness :
    sampleState.sched.attemptCount ≤ sampleState.sched.maxAttempts :=
  c3_attempt_count_bounded sampleState sampleState Reachable.refl (by decide) (by decide)

/-- Witness for C2 at a concrete starting state. -/
theorem c2_posted_audit_witness :
    ((sampleState.sched.status = .POSTED →
      sampleState.sched.postedAt ≠ none
      ∧ (∃ row, successRows sampleState.attempts = [row] ∧ row.status = .SUCCESS
          ∧ row.attemptNo = sampleState.sched.attemptCount)
      ∧ sampleState.metrics = 1)
    ∧ (sampleState.sched.status = .POSTED → ∀ now, ¬ dueAt sampleState.sched now)) :=
  c2_posted_audit sampleState sampleState Reachable.refl (Or.inl (by decide))
    (by decide) (by decide)

/-! ### The cycle loop: fairness filter and summary counters -/

/-- One due row as seen by the cycle loop: the owning account id and the
outcome its processing would produce (an oracle, like Env above). -/
structure CycleRow where
  accountId : List Char
  outcome : Outcome
deriving DecidableEq, Repr

structure PublisherSummary where
  scanned : Nat
  attempted : Nat
  posted : Nat
  failed : Nat
  blocked : Nat
  rescheduled : Nat
deriving DecidableEq, Repr

/-- The rows of the due batch that survive the seen-account filter of
runPublisherCycle, given the set of account ids already seen. -/
def cycleSurvivors : List CycleRow → List (List Char) → List CycleRow
  | [], _ => []
  | row :: rest, seen =>
    if row.accountId ∈ seen then cycleSurvivors rest seen
    else row :: cycleSurvivors rest (row.accountId :: seen)

def countOutcome (rows : List CycleRow) (o : Outcome) : Nat :=
  (rows.filter (fun r => r.outcome == o)).length

/-- Embeds the counting loop of runPublisherCycle: scanned is the batch
size, attempted counts the rows surviving the fairness filter, and the
outcome tallies count over those surviving rows. -/
def runPublisherCycleSummary (rows : List CycleRow) : PublisherSummary :=
  let processed := cycleSurvivors rows []
  { scanned := rows.length
    attempted := processed.length
    posted := countOutcome processed .posted
    failed := countOutcome processed .failed
    blocked := countOutcome processed .blocked
    rescheduled := countOutcome processed .rescheduled }

theorem cycleSurvivors_count (rows : List CycleRow) (seen : List (List Char))
    (aId : List Char) :
    ((cycleSurvivors rows seen).filter (fun r => r.accountId == aId)).length
      ≤ (if aId ∈ seen then 0 else 1) := by
  induction rows generalizing seen with
  | nil => simp [cycleSurvivors]
  | cons row rest ih =>
    unfold cycleSurvivors
    by_cases hseen : row.accountId ∈ seen
    · rw [if_pos hseen]
      exact ih seen
    · rw [if_neg hseen]
      by_cases heq : row.accountId = aId
      · have h1 := ih (row.accountId :: seen)
        rw [if_pos (by rw [heq]; exact List.mem_cons_self _ _)] at h1
        subst heq
        rw [if_neg hseen]
        simp only [List.filter_cons, beq_self_eq_true, if_true]
        simpa using h1
      · have h1 := ih (row.accountId :: seen)
        have hnm : aId ∉ row.accountId :: seen → aId ∉ seen := by
          intro hx
          exact fun hy => hx (List.mem_cons_of_mem _ hy)
        simp only [List.filter_cons, beq_iff_eq, heq, if_false]
        by_cases hmem : aId ∈ seen
        · rw [if_pos hmem]
          rw [if_pos (List.mem_cons_of_mem _ hmem)] at h1
          simpa [heq] using h1
        · rw [if_neg hmem]
          rw [if_neg (by
            intro hx
            rcases List.mem_cons.mp hx with hx1 | hx1
            · exact heq hx1.symm
            · exact hmem hx1)] at h1
          simpa [heq] using h1

/-- C4: in one cycle invocation at most one schedule per account is
processed; the attempted counter equals the number of rows surviving the
fairness filter; with two due rows for account A and one for account B,
attempted is two. -/
theorem c4_cycle_fairness :
    (∀ (rows : List CycleRow) (aId : List Char),
      ((cycleSurvivors rows []).filter (fun r => r.accountId == aId)).length ≤ 1)
    ∧ (∀ rows : List CycleRow,
        (runPublisherCycleSummary rows).attempted = (cycleSurvivors rows []).length)
    ∧ (runPublisherCycleSummary
        [⟨"A".toList, .posted⟩, ⟨"A".toList, .posted⟩, ⟨"B".toList, .posted⟩]).attempted = 2 := by
  refine ⟨fun rows aId => ?_, fun rows => rfl, by decide⟩
  have h := cycleSurvivors_count rows [] aId
  simpa using h

/-! ### C1: the failure-mapping settlement -/

theorem computeRetryAt_eq_max (now : Int) (n : Nat) (resetAt : Option Int) :
    computeRetryAt now n resetAt
      = (match resetAt with
         | some rr => max (addMinutes now (([2, 10, 30] : List Int).getD (min 2 (n - 1)) 0)) rr
         | none => addMinutes now (([2, 10, 30] : List Int).getD (min 2 (n - 1)) 0)) := by
  simp only [computeRetryAt]
  have hidx : max 0 (min (RETRY_MINUTES.length - 1) (n - 1)) = min 2 (n - 1) := by
    simp only [RETRY_MINUTES, List.length_cons, List.length_nil]
    omega
  rw [hidx]
  have hlist : RETRY_MINUTES = ([2, 10, 30] : List Int) := rfl
  rw [hlist]
  cases resetAt with
  | none => rfl
  | some rr =>
    show (if rr > addMinutes now (([2, 10, 30] : List Int).getD (min 2 (n - 1)) 0) then rr
          else addMinutes now (([2, 10, 30] : List Int).getD (min 2 (n - 1)) 0))
        = max (addMinutes now (([2, 10, 30] : List Int).getD (min 2 (n - 1)) 0)) rr
    rcases le_or_lt rr (addMinutes now (([2, 10, 30] : List Int).getD (min 2 (n - 1)) 0)) with h | h
    · rw [if_neg (not_lt.mpr h), max_eq_left h]
    · rw [if_pos h, max_eq_right (le_of_lt h)]

/-- C1: when the publish call returns a non-2xx status, the settlement marks
the schedule FAILED exactly when the status is not 401/403 and the new
attempt count n = attemptCount + 1 is still below maxAttempts (BLOCKED
otherwise), stores attemptCount = n, sets nextAttemptAt to the maximum of
now + backoff[clamp(n-1,0,2)] (backoff [2m,10m,30m], so the advertised
resetAt wins only when strictly later) when retrying and null otherwise, and
maps the account status 429 to RATE_LIMITED, 401 to TOKEN_EXPIRED, 403 to
SUSPENDED, writing back the prior status for every other code. -/
theorem c1_failure_settlement (s : Schedule) (a : Account) (env : Env)
    (px : Option AccountProxyConfig) (tok : List Char)
    (hpx : resolveProxyConfig a env = .ok px)
    (htok : tokenExpired a env.now = false)
    (hdec : env.accessTokenDecrypt = .ok tok)
    (hrisk : applyRiskGuards a s.variantBody env = .proceed)
    (hfail : env.publish.ok = false) :
    (processSchedule s a env).sched.status =
      (if ¬(env.publish.status = 401 ∨ env.publish.status = 403)
          ∧ s.attemptCount + 1 < s.maxAttempts then ScheduleStatus.FAILED
       else ScheduleStatus.BLOCKED)
    ∧ (processSchedule s a env).sched.attemptCount = s.attemptCount + 1
    ∧ (¬(env.publish.status = 401 ∨ env.publish.status = 403)
          ∧ s.attemptCount + 1 < s.maxAttempts →
        (processSchedule s a env).sched.nextAttemptAt
          = some (match env.publish.rateLimit.resetAt with
              | some rr => max (addMinutes env.now
                  (([2, 10, 30] : List Int).getD (min 2 s.attemptCount) 0)) rr
              | none => addMinutes env.now
                  (([2, 10, 30] : List Int).getD (min 2 s.attemptCount) 0)))
    ∧ (¬(¬(env.publish.status = 401 ∨ env.publish.status = 403)
          ∧ s.attemptCount + 1 < s.maxAttempts) →
        (processSchedule s a env).sched.nextAttemptAt = none)
    ∧ (processSchedule s a env).acct.status =
        (if env.publish.status = 429 then AccountStatus.RATE_LIMITED
         else if env.publish.status = 401 then AccountStatus.TOKEN_EXPIRED
         else if env.publish.status = 403 then AccountStatus.SUSPENDED
         else a.status) := by
  have hred : processSchedule s a env = settleFailure s a a env.publish env false := by
    simp only [processSchedule, hpx, htok, hdec, riskPhase, hrisk, publishPhase, hfail,
      Bool.false_eq_true, if_false]
  rw [hred]
  have hprojStatus : (settleFailure s a a env.publish env false).sched.status
      = (if (!(env.publish.status == 401 || env.publish.status == 403)
            && decide (s.attemptCount + 1 < s.maxAttempts)) = true
         then ScheduleStatus.FAILED else ScheduleStatus.BLOCKED) := rfl
  have hprojNext : (settleFailure s a a env.publish env false).sched.nextAttemptAt
      = (if (!(env.publish.status == 401 || env.publish.status == 403)
            && decide (s.attemptCount + 1 < s.maxAttempts)) = true
         then some (computeRetryAt env.now (s.attemptCount + 1) env.publish.rateLimit.resetAt)
         else none) := rfl
  have hprojAcct : (settleFailure s a a env.publish env false).acct.status
      = (if (env.publish.status == 429) = true then AccountStatus.RATE_LIMITED
         else if (env.publish.status == 401) = true then AccountStatus.TOKEN_EXPIRED
         else if (env.publish.status == 403) = true then AccountStatus.SUSPENDED
         else a.status) := rfl
  have hacct : (settleFailure s a a env.publish env false).acct.status
      = (if env.publish.status = 429 then AccountStatus.RATE_LIMITED
         else if env.publish.status = 401 then AccountStatus.TOKEN_EXPIRED
         else if env.publish.status = 403 then AccountStatus.SUSPENDED
         else a.status) := by
    rw [hprojAcct]
    rcases Classical.em (env.publish.status = 429) with h429 | h429 <;>
      rcases Classical.em (env.publish.status = 401) with h401 | h401 <;>
      rcases Classical.em (env.publish.status = 403) with h403 | h403 <;>
      simp [h429, h401, h403]
  by_cases hcr : ¬(env.publish.status = 401 ∨ env.publish.status = 403)
      ∧ s.attemptCount + 1 < s.maxAttempts
  · have hb : (!(env.publish.status == 401 || env.publish.status == 403)
        && decide (s.attemptCount + 1 < s.maxAttempts)) = true := by
      simp only [Bool.and_eq_true, Bool.not_eq_true', Bool.or_eq_false_iff, beq_eq_false_iff_ne,
        decide_eq_true_eq]
      exact ⟨⟨fun h => hcr.1 (Or.inl h), fun h => hcr.1 (Or.inr h)⟩, hcr.2⟩
    refine ⟨?_, rfl, fun _ => ?_, fun hn => absurd hcr hn, hacct⟩
    · rw [if_pos hcr, hprojStatus, if_pos hb]
    · rw [hprojNext, if_pos hb, computeRetryAt_eq_max]
      simp
  · have hb : (!(env.publish.status == 401 || env.publish.status == 403)
        && decide (s.attemptCount + 1 < s.maxAttempts)) = false := by
      rcases Classical.em (env.publish.status = 401 ∨ env.publish.status = 403) with hf | hf
      · rcases hf with h1 | h1 <;> simp [h1]
      · have hge : ¬(s.attemptCount + 1 < s.maxAttempts) := fun hlt => hcr ⟨hf, hlt⟩
        simp only [Bool.and_eq_false_iff]
        right
        simpa using hge
    refine ⟨?_, rfl, fun hyes => absurd hyes hcr, fun _ => ?_, hacct⟩
    · rw [if_neg hcr, hprojStatus, hb]
      simp
    · rw [hprojNext, hb]
      simp

/-- A concrete environment in which the publish call is rate-limited. -/
def sampleEnvFail : Env :=
  { now := 1000000, proxyPwDecrypt := .ok [], accessTokenDecrypt := .ok "tok".toList,
    refresh := .threw, dayPosts := 0, monthPosts := 0, recentBodies := [],
    publish := { ok := false, postId := none, status := 429, errorCode := none,
                 errorMessage := some "Too Many Requests".toList,
                 rateLimit := { limit := some 300, remaining := some 0,
                                resetAt := some 1500000 } } }

/-- Witness for C1 at a concrete schedule, account and environment. -/
theorem c1_failure_settlement_witness :
    (processSchedule sampleSchedule sampleAccount sampleEnvFail).sched.status
      = (if ¬(sampleEnvFail.publish.status = 401 ∨ sampleEnvFail.publish.status = 403)
            ∧ sampleSchedule.attemptCount + 1 < sampleSchedule.maxAttempts
         then ScheduleStatus.FAILED else ScheduleStatus.BLOCKED)
    ∧ (processSchedule sampleSchedule sampleAccount sampleEnvFail).sched.attemptCount
      = sampleSchedule.attemptCount + 1 :=
  ⟨(c1_failure_settlement sampleSchedule sampleAccount sampleEnvFail none ("tok".toList)
      rfl rfl rfl rfl rfl).1,
   (c1_failure_settlement sampleSchedule sampleAccount sampleEnvFail none ("tok".toList)
      rfl rfl rfl rfl rfl).2.1⟩

/-! ### C5: minimum-interval pacing reschedules instead of attempting -/

/-- C5: a due schedule whose account posted more recently than the minimum
interval allows — once credentials are in hand (proxy resolved, token not
expired, access token decryptable) so that processing reaches the risk
gate — is rescheduled rather than attempted: it returns to PENDING with
plannedAt = lastPostedAt + minIntervalMinutes, a null nextAttemptAt, a
pacing lastError; no attempt row is written, the attempt counter is
untouched, the account row is untouched, and neither platform call is
made. -/
theorem c5_pacing_reschedule (s : Schedule) (a : Account) (env : Env)
    (px : Option AccountProxyConfig) (tok : List Char) (lp : Int)
    (hpx : resolveProxyConfig a env = .ok px)
    (htok : tokenExpired a env.now = false)
    (hdec : env.accessTokenDecrypt = .ok tok)
    (hlp : a.lastPostedAt = some lp)
    (hpace : lp + a.minIntervalMinutes * 60000 > env.now) :
    (processSchedule s a env).outcome = .rescheduled
    ∧ (processSchedule s a env).sched.status = .PENDING
    ∧ (processSchedule s a env).sched.plannedAt = lp + a.minIntervalMinutes * 60000
    ∧ (processSchedule s a env).sched.nextAttemptAt = none
    ∧ (processSchedule s a env).sched.lastError = some (minIntervalMsg a.minIntervalMinutes)
    ∧ (processSchedule s a env).newAttempts = []
    ∧ (processSchedule s a env).sched.attemptCount = s.attemptCount
    ∧ (processSchedule s a env).acct = a
    ∧ (processSchedule s a env).publishCalled = false
    ∧ (processSchedule s a env).refreshCalled = false := by
  have hguard : applyRiskGuards a s.variantBody env
      = .reschedule (lp + a.minIntervalMinutes * 60000) := by
    simp only [applyRiskGuards, hlp, addMinutes]
    rw [if_pos hpace]
  have hred : processSchedule s a env
      = settleReschedule s a a (lp + a.minIntervalMinutes * 60000) false := by
    simp only [processSchedule, hpx, htok, hdec, riskPhase, hguard,
      Bool.false_eq_true, if_false]
  rw [hred]
  exact ⟨rfl, rfl, rfl, rfl, rfl, rfl, rfl, rfl, rfl, rfl⟩

/-- A concrete environment whose clock is inside the pacing window of
sampleAccountPaced. -/
def sampleEnvPaced : Env :=
  { now := 1000000, proxyPwDecrypt := .ok [], accessTokenDecrypt := .ok "tok".toList,
    refresh := .threw, dayPosts := 0, monthPosts := 0, recentBodies := [],
    publish := { ok := true, postId := some "p1".toList, status := 200, errorCode := none,
                 errorMessage := none,
                 rateLimit := { limit := none, remaining := none, resetAt := none } } }

def sampleAccountPaced : Account :=
  { sampleAccount with lastPostedAt := some 900000 }

/-- Witness for C5 at a concrete schedule, account and environment
(lastPostedAt 900000, 30-minute interval, now 1000000). -/
theorem c5_pacing_reschedule_witness :
    (processSchedule sampleSchedule sampleAccountPaced sampleEnvPaced).outcome = .rescheduled
    ∧ (processSchedule sampleSchedule sampleAccountPaced sampleEnvPaced).sched.plannedAt
        = 900000 + 30 * 60000
    ∧ (processSchedule sampleSchedule sampleAccountPaced sampleEnvPaced).newAttempts = []
    ∧ (processSchedule sampleSchedule sampleAccountPaced sampleEnvPaced).publishCalled = false :=
  ⟨(c5_pacing_reschedule sampleSchedule sampleAccountPaced sampleEnvPaced none ("tok".toList)
      900000 rfl rfl rfl rfl (by decide)).1,
   (c5_pacing_reschedule sampleSchedule sampleAccountPaced sampleEnvPaced none ("tok".toList)
      900000 rfl rfl rfl rfl (by decide)).2.2.1,
   (c5_pacing_reschedule sampleSchedule sampleAccountPaced sampleEnvPaced none ("tok".toList)
      900000 rfl rfl rfl rfl (by decide)).2.2.2.2.2.1,
   (c5_pacing_reschedule sampleSchedule sampleAccountPaced sampleEnvPaced none ("tok".toList)
      900000 rfl rfl rfl rfl (by decide)).2.2.2.2.2.2.2.2.1⟩

/-! ### C10: which settlements touch the account row -/

def sampleEnv500 : Env :=
  { sampleEnvFail with
    publish := { ok := false, postId := none, status := 500, errorCode := none,
                 errorMessage := some "boom".toList,
                 rateLimit := { limit := none, remaining := none, resetAt := none } } }

/-- C10 counterexample: a publish failure with HTTP 500 — neither a
token-refresh failure nor one of the terminal statuses 401/403/429 — still
modifies the account row during settlement: its healthMessage is overwritten
with the error message.  This refutes the claim that only token-refresh
failures and the statuses 401/403/429 ever modify the account. -/
theorem c10_counterexample :
    (processSchedule sampleSchedule sampleAccount sampleEnv500).sched.status = .FAILED
    ∧ sampleEnv500.publish.status = 500
    ∧ sampleAccount.healthMessage = none
    ∧ (processSchedule sampleSchedule sampleAccount sampleEnv500).acct.healthMessage
        = some "boom".toList := by
  decide

theorem digitCharM_ne_T {d : Nat} (hd : d ≤ 9) : digitCharM d ≠ 'T' := by
  interval_cases d <;> decide

theorem noT_natChars {limit : Nat} (h : ('T' : Char) ∈ natChars limit) : False := by
  unfold natChars at h
  obtain ⟨d, hd, hc⟩ := natCharsFuel_digits h
  exact digitCharM_ne_T hd hc.symm

theorem noT_daily (limit : Nat) :
    containsSeq tokenExpiredPat (dailyQuotaMsg limit) = false := by
  cases hb : containsSeq tokenExpiredPat (dailyQuotaMsg limit) with
  | false => rfl
  | true =>
    exfalso
    have hT := containsSeq_chars hb 'T' (by decide)
    unfold dailyQuotaMsg at hT
    rcases List.mem_append.mp hT with h1 | h1
    · rcases List.mem_append.mp h1 with h2 | h2
      · exact absurd h2 (by decide)
      · exact noT_natChars h2
    · exact absurd h1 (by decide)

theorem noT_monthly (limit : Nat) :
    containsSeq tokenExpiredPat (monthlyQuotaMsg limit) = false := by
  cases hb : containsSeq tokenExpiredPat (monthlyQuotaMsg limit) with
  | false => rfl
  | true =>
    exfalso
    have hT := containsSeq_chars hb 'T' (by decide)
    unfold monthlyQuotaMsg at hT
    rcases List.mem_append.mp hT with h1 | h1
    · rcases List.mem_append.mp h1 with h2 | h2
      · exact absurd h2 (by decide)
      · exact noT_natChars h2
    · exact absurd h1 (by decide)

/-- None of the three risk-guard block reasons contains the text the source
greps for to demote the account, so a risk block never sets an account
status. -/
theorem riskQuotaChecks_block_noT {a : Account} {body : List Char} {env : Env}
    {reason : List Char} (h : riskQuotaChecks a body env = .block reason) :
    containsSeq tokenExpiredPat reason = false := by
  unfold riskQuotaChecks at h
  split_ifs at h with h1 h2 h3
  · cases h
    exact noT_daily _
  · cases h
    exact noT_monthly _
  · cases h
    decide

theorem applyRiskGuards_block_noT {a : Account} {body : List Char} {env : Env}
    {reason : List Char} (h : applyRiskGuards a body env = .block reason) :
    containsSeq tokenExpiredPat reason = false := by
  rcases hlp : a.lastPostedAt with _ | lp <;>
    simp only [applyRiskGuards, hlp] at h
  · exact riskQuotaChecks_block_noT h
  · by_cases h1 : addMinutes lp a.minIntervalMinutes > env.now
    · rw [if_pos h1] at h
      cases h
    · rw [if_neg h1] at h
      exact riskQuotaChecks_block_noT h

/-- C10 as amended: the BLOCKED settlements for a quota hit, a similarity
hit, an incomplete proxy configuration, or a decryption failure of the proxy
password or the access token leave the account row entirely unchanged;
besides token-refresh failures and the mapped statuses 401/403/429, the only
account writes during settlement are the success settlement and the
failure settlement of every non-2xx status, which overwrites healthMessage
with the error message while writing the prior status back unchanged for
statuses outside 401/403/429. -/
theorem c10_block_frame_amended :
    (∀ (s : Schedule) (a : Account) (env : Env) (reason : List Char),
      resolveProxyConfig a env = .error reason → (processSchedule s a env).acct = a)
    ∧ (∀ (s : Schedule) (a : Account) (env : Env),
        tokenExpired a env.now = false → env.accessTokenDecrypt = .error () →
        (processSchedule s a env).acct = a)
    ∧ (∀ (s : Schedule) (a : Account) (env : Env) (px : Option AccountProxyConfig)
        (tok reason : List Char),
        resolveProxyConfig a env = .ok px →
        tokenExpired a env.now = false → env.accessTokenDecrypt = .ok tok →
        applyRiskGuards a s.variantBody env = .block reason →
        (processSchedule s a env).acct = a)
    ∧ (∀ (s : Schedule) (a : Account) (env : Env) (px : Option AccountProxyConfig)
        (tok : List Char),
        resolveProxyConfig a env = .ok px →
        tokenExpired a env.now = false → env.accessTokenDecrypt = .ok tok →
        applyRiskGuards a s.variantBody env = .proceed → env.publish.ok = false →
        ¬(env.publish.status = 401 ∨ env.publish.status = 403 ∨ env.publish.status = 429) →
        (processSchedule s a env).acct.status = a.status
        ∧ (processSchedule s a env).acct.healthMessage
            = some (env.publish.errorMessage.getD (httpStatusMsg env.publish.status))) := by
  refine ⟨?_, ?_, ?_, ?_⟩
  · intro s a env reason h
    simp only [processSchedule, h]
    rfl
  · intro s a env htok hdec
    cases hpx : resolveProxyConfig a env with
    | error reason =>
      simp only [processSchedule, hpx]
      rfl
    | ok px =>
      simp only [processSchedule, hpx, htok, hdec, Bool.false_eq_true, if_false]
      rfl
  · intro s a env px tok reason hpx htok hdec hguard
    have hnoT := applyRiskGuards_block_noT hguard
    simp only [processSchedule, hpx, htok, hdec, riskPhase, hguard, hnoT,
      Bool.false_eq_true, if_false]
    rfl
  · intro s a env px tok hpx htok hdec hguard hfail hnot
    have hred : processSchedule s a env = settleFailure s a a env.publish env false := by
      simp only [processSchedule, hpx, htok, hdec, riskPhase, hguard, publishPhase, hfail,
        Bool.false_eq_true, if_false]
    rw [hred]
    have h429 : (env.publish.status == 429) = false := by
      simp only [beq_eq_false_iff_ne, ne_eq]
      exact fun h => hnot (Or.inr (Or.inr h))
    have h401 : (env.publish.status == 401) = false := by
      simp only [beq_eq_false_iff_ne, ne_eq]
      exact fun h => hnot (Or.inl h)
    have h403 : (env.publish.status == 403) = false := by
      simp only [beq_eq_false_iff_ne, ne_eq]
      exact fun h => hnot (Or.inr (Or.inl h))
    constructor
    · have hproj : (settleFailure s a a env.publish env false).acct.status
          = (if (env.publish.status == 429) = true then AccountStatus.RATE_LIMITED
             else if (env.publish.status == 401) = true then AccountStatus.TOKEN_EXPIRED
             else if (env.publish.status == 403) = true then AccountStatus.SUSPENDED
             else a.status) := rfl
      rw [hproj, h429, h401, h403]
      simp
    · rfl

/-- Witness for the amended C10 at concrete inputs: an incomplete proxy
configuration blocks without touching the account, and a 500 failure keeps
the prior account status while overwriting healthMessage. -/
theorem c10_block_frame_amended_witness :
    (processSchedule sampleSchedule
        { sampleAccount with proxyEnabled := true, proxyProtocol := some .HTTP }
        sampleEnvFail).acct
      = { sampleAccount with proxyEnabled := true, proxyProtocol := some .HTTP }
    ∧ (processSchedule sampleSchedule sampleAccount sampleEnv500).acct.status
        = sampleAccount.status :=
  ⟨c10_block_frame_amended.1 sampleSchedule
      { sampleAccount with proxyEnabled := true, proxyProtocol := some .HTTP }
      sampleEnvFail proxyIncompleteMsg rfl,
   (c10_block_frame_amended.2.2.2 sampleSchedule sampleAccount sampleEnv500 none
      ("tok".toList) rfl rfl rfl rfl rfl (by decide)).1⟩

/-! ### Dispatch planner (app/api/dispatch/route.ts) -/

def intChars (i : Int) : List Char :=
  if i < 0 then '-' :: natChars (-i).toNat else natChars i.toNat

/-- Models Date.prototype.toISOString as an injective rendering of the
millisecond timestamp (the key only needs the rendering to be a function of
the instant). -/
def isoChars (t : Int) : List Char :=
  intChars t

/-- Embeds buildIdempotencyKey: contentId:accountId:plannedAt.ISO. -/
def buildIdempotencyKey (contentId accountId : List Char) (plannedAt : Int) : List Char :=
  contentId ++ ":".toList ++ accountId ++ ":".toList ++ isoChars plannedAt

structure InsertedRow where
  accountId : List Char
  plannedAt : Int
  idempotencyKey : List Char
deriving DecidableEq, Repr

/-- Embeds the schedule-insert loop of the dispatch POST handler: one row
per target account, plannedAt staggered by the running index (which advances
for every account, conflict or not), and a unique-key conflict (P2002)
silently skipped instead of raised.  The store is abstracted by the list of
idempotency keys already present; the function returns the inserted rows and
the updated key set. -/
def dispatchGo (contentId : List Char) (scheduleAt staggerMinutes : Int) :
    List (List Char) → Nat → List (List Char) → List InsertedRow × List (List Char)
  | [], _, keys => ([], keys)
  | accId :: rest, index, keys =>
    let rowPlannedAt := addMinutes scheduleAt (staggerMinutes * index)
    let key := buildIdempotencyKey contentId accId rowPlannedAt
    if key ∈ keys then dispatchGo contentId scheduleAt staggerMinutes rest (index + 1) keys
    else
      let res := dispatchGo contentId scheduleAt staggerMinutes rest (index + 1) (key :: keys)
      (⟨accId, rowPlannedAt, key⟩ :: res.1, res.2)

theorem dispatchGo_cons (contentId : List Char) (scheduleAt staggerMinutes : Int)
    (accId : List Char) (rest : List (List Char)) (index : Nat) (keys : List (List Char)) :
    dispatchGo contentId scheduleAt staggerMinutes (accId :: rest) index keys
      = (if buildIdempotencyKey contentId accId
            (addMinutes scheduleAt (staggerMinutes * index)) ∈ keys
         then dispatchGo contentId scheduleAt staggerMinutes rest (index + 1) keys
         else
           (⟨accId, addMinutes scheduleAt (staggerMinutes * index),
              buildIdempotencyKey contentId accId
                (addMinutes scheduleAt (staggerMinutes * index))⟩
            :: (dispatchGo contentId scheduleAt staggerMinutes rest (index + 1)
                (buildIdempotencyKey contentId accId
                  (addMinutes scheduleAt (staggerMinutes * index)) :: keys)).1,
            (dispatchGo contentId scheduleAt staggerMinutes rest (index + 1)
                (buildIdempotencyKey contentId accId
                  (addMinutes scheduleAt (staggerMinutes * index)) :: keys)).2)) := rfl

theorem dispatchGo_keys_mono (contentId : List Char) (scheduleAt staggerMinutes : Int)
    (accs : List (List Char)) (index : Nat) (keys : List (List Char)) :
    keys ⊆ (dispatchGo contentId scheduleAt staggerMinutes accs index keys).2 := by
  induction accs generalizing index keys with
  | nil => exact fun x hx => hx
  | cons accId rest ih =>
    rw [dispatchGo_cons]
    by_cases hk : buildIdempotencyKey contentId accId
        (addMinutes scheduleAt (staggerMinutes * index)) ∈ keys
    · rw [if_pos hk]
      exact ih (index + 1) keys
    · rw [if_neg hk]
      exact fun x hx => ih (index + 1) _ (List.mem_cons_of_mem _ hx)

theorem dispatchGo_idempotent (contentId : List Char) (scheduleAt staggerMinutes : Int)
    (accs : List (List Char)) (index : Nat) (keys : List (List Char)) :
    dispatchGo contentId scheduleAt staggerMinutes accs index
        (dispatchGo contentId scheduleAt staggerMinutes accs index keys).2
      = ([], (dispatchGo contentId scheduleAt staggerMinutes accs index keys).2) := by
  induction accs generalizing index keys with
  | nil => rfl
  | cons accId rest ih =>
    by_cases hk : buildIdempotencyKey contentId accId
        (addMinutes scheduleAt (staggerMinutes * index)) ∈ keys
    · have hfull : dispatchGo contentId scheduleAt staggerMinutes (accId :: rest) index keys
          = dispatchGo contentId scheduleAt staggerMinutes rest (index + 1) keys := by
        rw [dispatchGo_cons, if_pos hk]
      rw [hfull, dispatchGo_cons, if_pos (dispatchGo_keys_mono _ _ _ _ _ _ hk)]
      exact ih (index + 1) keys
    · have hK : (dispatchGo contentId scheduleAt staggerMinutes (accId :: rest) index keys).2
          = (dispatchGo contentId scheduleAt staggerMinutes rest (index + 1)
              (buildIdempotencyKey contentId accId
                (addMinutes scheduleAt (staggerMinutes * index)) :: keys)).2 := by
        rw [dispatchGo_cons, if_neg hk]
      rw [hK, dispatchGo_cons,
        if_pos (dispatchGo_keys_mono _ _ _ _ _ _ (List.mem_cons_self _ _))]
      exact ih (index + 1) _

theorem dispatchGo_rows (contentId : List Char) (scheduleAt staggerMinutes : Int)
    (accs : List (List Char)) (index : Nat) (keys : List (List Char)) :
    ∀ row ∈ (dispatchGo contentId scheduleAt staggerMinutes accs index keys).1,
      row.idempotencyKey = buildIdempotencyKey contentId row.accountId row.plannedAt
      ∧ ∃ j, accs.get? j = some row.accountId
        ∧ row.plannedAt = addMinutes scheduleAt (staggerMinutes * (index + j)) := by
  induction accs generalizing index keys with
  | nil => intro row hr; exact absurd hr (by simp [dispatchGo])
  | cons accId rest ih =>
    intro row hr
    rw [dispatchGo_cons] at hr
    by_cases hk : buildIdempotencyKey contentId accId
        (addMinutes scheduleAt (staggerMinutes * index)) ∈ keys
    · rw [if_pos hk] at hr
      obtain ⟨hkey, j, hacc, hpl⟩ := ih (index + 1) keys row hr
      refine ⟨hkey, j + 1, by simpa using hacc, ?_⟩
      rw [hpl]
      congr 1
      push_cast
      ring
    · rw [if_neg hk] at hr
      simp only [List.mem_cons] at hr
      rcases hr with hr | hr
      · subst hr
        refine ⟨rfl, 0, by simp, ?_⟩
        show addMinutes scheduleAt (staggerMinutes * (index : Int))
          = addMinutes scheduleAt (staggerMinutes * ((index : Int) + ((0 : Nat) : Int)))
        norm_num
      · obtain ⟨hkey, j, hacc, hpl⟩ := ih (index + 1) _ row hr
        refine ⟨hkey, j + 1, by simpa using hacc, ?_⟩
        rw [hpl]
        congr 1
        push_cast
        ring

/-- C6: dispatching the same (contentId, accountIds, scheduleAt,
staggerMinutes) twice leaves the same set of schedule rows — the second run
inserts zero rows and leaves the key set unchanged, every unique-key
conflict being skipped silently — and every inserted row of the first run
carries idempotencyKey contentId:accountId:plannedAt.ISO with
plannedAt = scheduleAt + j * staggerMinutes for its position j. -/
theorem c6_dispatch_idempotent (contentId : List Char) (scheduleAt staggerMinutes : Int)
    (accountIds : List (List Char)) (keys0 : List (List Char)) :
    (dispatchGo contentId scheduleAt staggerMinutes accountIds 0
        (dispatchGo contentId scheduleAt staggerMinutes accountIds 0 keys0).2).1 = []
    ∧ (dispatchGo contentId scheduleAt staggerMinutes accountIds 0
        (dispatchGo contentId scheduleAt staggerMinutes accountIds 0 keys0).2).2
      = (dispatchGo contentId scheduleAt staggerMinutes accountIds 0 keys0).2
    ∧ (∀ row ∈ (dispatchGo contentId scheduleAt staggerMinutes accountIds 0 keys0).1,
        row.idempotencyKey = buildIdempotencyKey contentId row.accountId row.plannedAt
        ∧ ∃ j, accountIds.get? j = some row.accountId
          ∧ row.plannedAt = addMinutes scheduleAt (staggerMinutes * j)) := by
  refine ⟨?_, ?_, ?_⟩
  · rw [dispatchGo_idempotent]
  · rw [dispatchGo_idempotent]
  · intro row hr
    obtain ⟨hkey, j, hacc, hpl⟩ := dispatchGo_rows contentId scheduleAt staggerMinutes
      accountIds 0 keys0 row hr
    refine ⟨hkey, j, hacc, ?_⟩
    rw [hpl]
    ring_nf

/-- Witness for C6 at concrete inputs (two accounts, 20-minute stagger). -/
theorem c6_dispatch_idempotent_witness :
    (dispatchGo "c1".toList 0 20 ["a1".toList, "a2".toList] 0
        (dispatchGo "c1".toList 0 20 ["a1".toList, "a2".toList] 0 []).2).1 = []
    ∧ ((dispatchGo "c1".toList 0 20 ["a1".toList, "a2".toList] 0 []).1.map
        InsertedRow.plannedAt) = [0, 1200000] :=
  ⟨(c6_dispatch_idempotent "c1".toList 0 20 ["a1".toList, "a2".toList] []).1, by decide⟩

/-! ### C7: rule-mode account selection of the dispatch planner -/

structure TagLink where
  tagName : List Char
deriving DecidableEq, Repr

structure RuleAccount where
  accountId : List Char
  language : Option (List Char)
  tagLinks : List TagLink
deriving DecidableEq, Repr

/-- Models String.prototype.trim (both ends, JavaScript whitespace). -/
def trimChars (l : List Char) : List Char :=
  ((l.dropWhile isSpaceChar).reverse.dropWhile isSpaceChar).reverse

def lowerChars (l : List Char) : List Char :=
  l.map toLowerChar

/-- Embeds content.topic?.trim().toLowerCase() ?? "" (and the same for the
language): the content side is trimmed, then lowercased, null becoming the
empty string. -/
def normContentField : Option (List Char) → List Char
  | none => []
  | some v => lowerChars (trimChars v)

/-- Embeds the rule-mode predicate of the dispatch POST handler: a tag name
lowercased (not trimmed) equal to the prepared topic, or a non-empty account
language lowercased (not trimmed) equal to the prepared language, each arm
guarded by the prepared content field being non-empty. -/
def ruleMatches (topic language : List Char) (a : RuleAccount) : Bool :=
  (decide (topic ≠ []) && a.tagLinks.any (fun link => lowerChars link.tagName == topic))
  || (decide (language ≠ []) &&
      (match a.language with
       | some al => !al.isEmpty && (lowerChars al == language)
       | none => false))

/-- Embeds the candidates.filter of the rule branch. -/
def ruleSelect (topic language : Option (List Char)) (accounts : List RuleAccount) :
    List RuleAccount :=
  accounts.filter (ruleMatches (normContentField topic) (normContentField language))

/-- The selection predicate as the claim words it: both sides of each
comparison lowercased AND trimmed before comparing. -/
def specRuleMatches (topic language : Option (List Char)) (a : RuleAccount) : Bool :=
  (decide (normContentField topic ≠ []) &&
      a.tagLinks.any (fun link => lowerChars (trimChars link.tagName) == normContentField topic))
  || (decide (normContentField language ≠ []) &&
      (match a.language with
       | some al => !al.isEmpty && (lowerChars (trimChars al) == normContentField language)
       | none => false))

/-- C7 counterexample: an account whose tag name differs from the content's
topic only by surrounding whitespace is NOT selected by the code, although
the claim (both sides trimmed) says it is: the code lowercases the tag name
and the account language but never trims them. -/
theorem c7_counterexample :
    ruleSelect (some "ai".toList) none
        [{ accountId := "a1".toList, language := none, tagLinks := [{ tagName := " ai".toList }] }]
      = []
    ∧ specRuleMatches (some "ai".toList) none
        { accountId := "a1".toList, language := none, tagLinks := [{ tagName := " ai".toList }] }
      = true := by
  decide

/-- C7 as amended: the rule mode selects exactly those accounts with a tag
name that lowercased (untrimmed) equals the trimmed-and-lowercased content
topic, or a non-empty language that lowercased (untrimmed) equals the
trimmed-and-lowercased content language; only the content side is trimmed,
so an account field differing by letter case alone still matches but one
differing by surrounding whitespace does not. -/
theorem c7_rule_selection_amended (topic language : Option (List Char))
    (accounts : List RuleAccount) (a : RuleAccount) :
    a ∈ ruleSelect topic language accounts
      ↔ a ∈ accounts ∧
        ((normContentField topic ≠ []
            ∧ ∃ link ∈ a.tagLinks, lowerChars link.tagName = normContentField topic)
          ∨ (normContentField language ≠ []
            ∧ ∃ al, a.language = some al ∧ al ≠ []
              ∧ lowerChars al = normContentField language)) := by
  rw [ruleSelect, List.mem_filter]
  constructor
  · rintro ⟨hmem, hb⟩
    refine ⟨hmem, ?_⟩
    rw [ruleMatches, Bool.or_eq_true] at hb
    rcases hb with hb | hb
    · rw [Bool.and_eq_true] at hb
      obtain ⟨ht, hany⟩ := hb
      obtain ⟨link, hlink, heq⟩ := List.any_eq_true.mp hany
      exact Or.inl ⟨of_decide_eq_true ht, link, hlink, by simpa using heq⟩
    · rw [Bool.and_eq_true] at hb
      obtain ⟨hl, hmatch⟩ := hb
      cases hal : a.language with
      | none => rw [hal] at hmatch; exact absurd hmatch (by simp)
      | some al =>
        rw [hal] at hmatch
        rw [Bool.and_eq_true] at hmatch
        refine Or.inr ⟨of_decide_eq_true hl, al, rfl, ?_, by simpa using hmatch.2⟩
        have := hmatch.1
        simpa [List.isEmpty_iff] using this
  · rintro ⟨hmem, hcond⟩
    refine ⟨hmem, ?_⟩
    rw [ruleMatches, Bool.or_eq_true]
    rcases hcond with ⟨ht, link, hlink, heq⟩ | ⟨hl, al, hal, hne, heq⟩
    · left
      rw [Bool.and_eq_true]
      exact ⟨decide_eq_true ht, List.any_eq_true.mpr ⟨link, hlink, by simpa using heq⟩⟩
    · right
      rw [Bool.and_eq_true]
      refine ⟨decide_eq_true hl, ?_⟩
      rw [hal]
      rw [Bool.and_eq_true]
      exact ⟨by simpa [List.isEmpty_iff] using hne, by simpa using heq⟩

/-! ### Credential store (lib/crypto.ts): AES-256-GCM over byte lists

Bytes are naturals below 256; a 128-bit block is a natural below 2^128 in
big-endian byte order.  The cipher is the concrete AES-256-GCM algorithm the
source invokes through createCipheriv/createDecipheriv (validated below
against the FIPS-197 and NIST GCM known-answer vectors). -/

def bytesToNat (bs : List Nat) : Nat :=
  bs.foldl (fun acc b => acc * 256 + b) 0

def blockBytes (n : Nat) : List Nat :=
  (List.range 16).map (fun i => n / 256 ^ (15 - i) % 256)

/-- The AES S-box, packed little-endian into one natural: the byte for
input b sits at position b. -/
def sboxN : Nat :=
  0x16bb54b00f2d99416842e6bf0d89a18cdf2855cee9871e9b948ed9691198f8e19e1dc186b95735610ef6034866b53e708a8bbd4b1f74dde8c6b4a61c2e2578ba08ae7a65eaf4566ca94ed58d6d37c8e779e4959162acd3c25c2406490a3a32e0db0b5ede14b8ee4688902a22dc4f816073195d643d7ea7c41744975fec130ccdd2f3ff1021dab6bcf5389d928f40a351a89f3c507f02f94585334d43fbaaefd0cf584c4a39becb6a5bb1fc20ed00d153842fe329b3d63b52a05a6e1b1a2c830975b227ebe28012079a059618c323c7041531d871f1e5a534ccf73f362693fdb7c072a49cafa2d4adf04759fa7dc982ca76abd7fe2b670130c56f6bf27b777c63

def sboxByte (b : Nat) : Nat :=
  sboxN / 256 ^ b % 256

def subWord (w : Nat) : Nat :=
  (((sboxByte (w / 256 ^ 3 % 256) * 256 + sboxByte (w / 256 ^ 2 % 256)) * 256
    + sboxByte (w / 256 % 256)) * 256) + sboxByte (w % 256)

def rotWord (w : Nat) : Nat :=
  w % 256 ^ 3 * 256 + w / 256 ^ 3

def rconW (j : Nat) : Nat :=
  ([0, 1, 2, 4, 8, 16, 32, 64] : List Nat).getD j 0

/-- One word of the AES-256 key schedule, appended to the words so far. -/
def nextKeyWord (ws : List Nat) : Nat :=
  let i := ws.length
  let prev := ws.getD (i - 1) 0
  let w8 := ws.getD (i - 8) 0
  let temp :=
    if i % 8 == 0 then Nat.xor (subWord (rotWord prev)) (rconW (i / 8) * 256 ^ 3)
    else if i % 8 == 4 then subWord prev
    else prev
  Nat.xor w8 temp

def expandWordsFuel : Nat → List Nat → List Nat
  | 0, ws => ws
  | fuel + 1, ws => expandWordsFuel fuel (ws ++ [nextKeyWord ws])

/-- The sixty 32-bit words of the AES-256 key schedule. -/
def keyWords (key : List Nat) : List Nat :=
  expandWordsFuel 52 ((List.range 8).map (fun i => bytesToNat ((key.drop (4 * i)).take 4)))

def roundKeyBytes (ws : List Nat) (r : Nat) : List Nat :=
  (List.range 16).map (fun i => ws.getD (4 * r + i / 4) 0 / 256 ^ (3 - i % 4) % 256)

/-- The fifteen round keys (16 bytes each) of AES-256. -/
def roundKeys (key : List Nat) : List (List Nat) :=
  (List.range 15).map (roundKeyBytes (keyWords key))

def subBytesL (st : List Nat) : List Nat :=
  st.map sboxByte

def shiftRowsL (st : List Nat) : List Nat :=
  (List.range 16).map (fun k => st.getD (k % 4 + 4 * ((k / 4 + k % 4) % 4)) 0)

/-- Multiplication by x in GF(2^8) with the AES reduction polynomial. -/
def xtimeB (a : Nat) : Nat :=
  if 128 <= a then Nat.xor (2 * a) 0x11B else 2 * a

def mul2B (a : Nat) : Nat := xtimeB a

def mul3B (a : Nat) : Nat := Nat.xor (xtimeB a) a

def mixColumnsL (st : List Nat) : List Nat :=
  (List.range 16).map (fun k =>
    let c := k / 4
    let r := k % 4
    let a0 := st.getD (4 * c) 0
    let a1 := st.getD (4 * c + 1) 0
    let a2 := st.getD (4 * c + 2) 0
    let a3 := st.getD (4 * c + 3) 0
    if r == 0 then Nat.xor (Nat.xor (mul2B a0) (mul3B a1)) (Nat.xor a2 a3)
    else if r == 1 then Nat.xor (Nat.xor a0 (mul2B a1)) (Nat.xor (mul3B a2) a3)
    else if r == 2 then Nat.xor (Nat.xor a0 a1) (Nat.xor (mul2B a2) (mul3B a3))
    else Nat.xor (Nat.xor (mul3B a0) a1) (Nat.xor a2 (mul2B a3)))

def addRoundKeyL (st rk : List Nat) : List Nat :=
  List.zipWith Nat.xor st rk

def aesRound (rks : List (List Nat)) (st : List Nat) (r : Nat) : List Nat :=
  addRoundKeyL (mixColumnsL (shiftRowsL (subBytesL st))) (rks.getD (r + 1) [])

/-- AES-256 encryption of one 16-byte block. -/
def encryptBlockL (rks : List (List Nat)) (inBytes : List Nat) : List Nat :=
  addRoundKeyL (shiftRowsL (subBytesL ((List.range 13).foldl (aesRound rks)
    (addRoundKeyL inBytes (rks.getD 0 []))))) (rks.getD 14 [])

def aesBlockRk (rks : List (List Nat)) (n : Nat) : Nat :=
  bytesToNat (encryptBlockL rks (blockBytes n))

set_option maxRecDepth 40000 in
/-- FIPS-197 appendix C.3 known-answer test for AES-256. -/
theorem aes256_fips197_vector :
    aesBlockRk (roundKeys ((List.range 32).map id)) 0x00112233445566778899aabbccddeeff
      = 0x8ea2b7ca516745bfeafc49904b496089 := by
  decide

/-- The GHASH reduction constant R = 11100001 || 0^120. -/
def gcmR : Nat := 0xE1 * 2 ^ 120

def gfmulStep (x : Nat) (zv : Nat × Nat) (i : Nat) : Nat × Nat :=
  (if x.testBit (127 - i) then Nat.xor zv.1 zv.2 else zv.1,
   if zv.2 % 2 == 1 then Nat.xor (zv.2 / 2) gcmR else zv.2 / 2)

/-- Multiplication in GF(2^128) with the bit-reflected GCM convention. -/
def gfmul (x y : Nat) : Nat :=
  ((List.range 128).foldl (gfmulStep x) (0, y)).1

def ghash (h : Nat) (blocks : List Nat) : Nat :=
  blocks.foldl (fun y b => gfmul (Nat.xor y b) h) 0

/-- Splits a byte string into 128-bit blocks, the last zero-padded (fuel
makes the recursion structural; fuel = length always suffices). -/
def ghashChunksFuel : Nat → List Nat → List Nat
  | 0, _ => []
  | _ + 1, [] => []
  | fuel + 1, bytes =>
    bytesToNat (bytes.take 16 ++ List.replicate (16 - bytes.length) 0)
      :: ghashChunksFuel fuel (bytes.drop 16)

def ghashChunks (bytes : List Nat) : List Nat :=
  ghashChunksFuel bytes.length bytes

def inc32 (j : Nat) : Nat :=
  j / 2 ^ 32 * 2 ^ 32 + (j % 2 ^ 32 + 1) % 2 ^ 32

/-- The pre-counter block: iv || 0^31 || 1 for a 12-byte IV, the GHASH of
the IV otherwise. -/
def computeJ0 (rks : List (List Nat)) (iv : List Nat) : Nat :=
  if iv.length == 12 then bytesToNat iv * 2 ^ 32 + 1
  else ghash (aesBlockRk rks 0) (ghashChunks iv ++ [8 * iv.length])

def ctrBytesAux (rks : List (List Nat)) (ctr : Nat) : Nat → List Nat
  | 0 => []
  | k + 1 => blockBytes (aesBlockRk rks (inc32 ctr)) ++ ctrBytesAux rks (inc32 ctr) k

def keystreamBytes (rks : List (List Nat)) (j0 : Nat) (len : Nat) : List Nat :=
  (ctrBytesAux rks j0 ((len + 15) / 16)).take len

def xorBytes (msg ks : List Nat) : List Nat :=
  List.zipWith Nat.xor msg ks

/-- CTR encryption/decryption (the same operation both ways in GCM). -/
def ctrCrypt (rks : List (List Nat)) (j0 : Nat) (msg : List Nat) : List Nat :=
  xorBytes msg (keystreamBytes rks j0 msg.length)

/-- The 16-byte GCM authentication tag over the ciphertext (no AAD, as in
the source). -/
def gcmTag (rks : List (List Nat)) (j0 : Nat) (ct : List Nat) : List Nat :=
  blockBytes (Nat.xor (ghash (aesBlockRk rks 0) (ghashChunks ct ++ [8 * ct.length]))
    (aesBlockRk rks j0))

set_option maxRecDepth 40000 in
/-- NIST GCM known-answer test: 256-bit zero key, 96-bit zero IV, empty
plaintext. -/
theorem gcm_empty_vector :
    gcmTag (roundKeys (List.replicate 32 0))
        (computeJ0 (roundKeys (List.replicate 32 0)) (List.replicate 12 0)) []
      = blockBytes 0x530f8afbc74536b9a963b4f1c4cb738b := by
  decide

set_option maxRecDepth 40000 in
/-- NIST GCM known-answer test: same key and IV, one zero block. -/
theorem gcm_block_vector :
    ctrCrypt (roundKeys (List.replicate 32 0))
        (computeJ0 (roundKeys (List.replicate 32 0)) (List.replicate 12 0))
        (List.replicate 16 0)
      = blockBytes 0xcea7403d4d606b6e074ec5d3baf39d18
    /\ gcmTag (roundKeys (List.replicate 32 0))
        (computeJ0 (roundKeys (List.replicate 32 0)) (List.replicate 12 0))
        (blockBytes 0xcea7403d4d606b6e074ec5d3baf39d18)
      = blockBytes 0xd0d1c8a799996bf0265b98b5d48ab919 := by
  decide

/-! ### Base64 (Node's Buffer base64 codec) and the sealed-payload format -/

def b64Alphabet : List Char :=
  "ABCDEFGHIJKLMNOPQRSTUVWXYZabcdefghijklmnopqrstuvwxyz0123456789+/".toList

def b64char (v : Nat) : Char :=
  b64Alphabet.getD v 'A'

def charToVal (c : Char) : Option Nat :=
  let i := b64Alphabet.indexOf c
  if i < 64 then some i else none

/-- Canonical padded base64 of a byte string (Buffer.prototype.toString
with base64). -/
def b64encode : List Nat → List Char
  | [] => []
  | [b0] => [b64char (b0 / 4), b64char (b0 % 4 * 16), '=', '=']
  | [b0, b1] => [b64char (b0 / 4), b64char (b0 % 4 * 16 + b1 / 16), b64char (b1 % 16 * 4), '=']
  | b0 :: b1 :: b2 :: rest =>
    b64char (b0 / 4) :: b64char (b0 % 4 * 16 + b1 / 16) :: b64char (b1 % 16 * 4 + b2 / 64)
      :: b64char (b2 % 64) :: b64encode rest

/-- Regroups 6-bit values into bytes, discarding the trailing bits of an
incomplete final group, as Node's lenient decoder does. -/
def b64decodeVals : List Nat → List Nat
  | v0 :: v1 :: v2 :: v3 :: rest =>
    (v0 * 4 + v1 / 16) :: (v1 % 16 * 16 + v2 / 4) :: (v2 % 4 * 64 + v3) :: b64decodeVals rest
  | [v0, v1] => [v0 * 4 + v1 / 16]
  | [v0, v1, v2] => [v0 * 4 + v1 / 16, v1 % 16 * 16 + v2 / 4]
  | _ => []

/-- Models Buffer.from(s, base64): non-alphabet characters (including the
padding) are ignored, then 6-bit groups are packed into bytes. -/
def b64decode (s : List Char) : List Nat :=
  b64decodeVals (s.filterMap charToVal)

/-- Models String.prototype.split on the dot. -/
def splitOnDot : List Char → List (List Char)
  | [] => [[]]
  | c :: rest =>
    if c = '.' then [] :: splitOnDot rest
    else
      match splitOnDot rest with
      | [] => [[c]]
      | h :: t => (c :: h) :: t

def invalidPayloadMsg : List Char :=
  "Invalid encrypted payload format".toList

def authFailMsg : List Char :=
  "Unsupported state or unable to authenticate data".toList

/-- Embeds encryptSecret from lib/crypto.ts: AES-256-GCM under the supplied
32-byte key and 12-byte random IV, serialized as
base64(iv).base64(tag).base64(ciphertext). -/
def encryptSecret (key iv value : List Nat) : List Char :=
  let rks := roundKeys key
  let j0 := computeJ0 rks iv
  let ct := ctrCrypt rks j0 value
  let tag := gcmTag rks j0 ct
  b64encode iv ++ ".".toList ++ b64encode tag ++ ".".toList ++ b64encode ct

/-- Embeds decryptSecret from lib/crypto.ts: split on dots (destructuring
takes the first three segments; a missing or empty segment throws), base64
decode each, then AES-256-GCM decrypt with the tag check of decipher.final
(throwing when the computed tag differs from the supplied one). -/
def decryptSecret (key : List Nat) (payload : List Char) : Except (List Char) (List Nat) :=
  let parts := splitOnDot payload
  let ivB := parts.getD 0 []
  let tagB := parts.getD 1 []
  let ctB := parts.getD 2 []
  if ivB.isEmpty || tagB.isEmpty || ctB.isEmpty then .error invalidPayloadMsg
  else
    let rks := roundKeys key
    let iv := b64decode ivB
    let j0 := computeJ0 rks iv
    let ct := b64decode ctB
    if gcmTag rks j0 ct == b64decode tagB then .ok (ctrCrypt rks j0 ct)
    else .error authFailMsg

/-! ### Round-trip and failure lemmas for the credential store -/

theorem blockBytes_length (n : Nat) : (blockBytes n).length = 16 := by
  simp [blockBytes]

theorem mem_blockBytes_lt {n b : Nat} (h : b ∈ blockBytes n) : b < 256 := by
  simp only [blockBytes, List.mem_map] at h
  obtain ⟨i, _, hi⟩ := h
  rw [← hi]
  exact Nat.mod_lt _ (by norm_num)

theorem ctrBytesAux_length (rks : List (List Nat)) (ctr k : Nat) :
    (ctrBytesAux rks ctr k).length = 16 * k := by
  induction k generalizing ctr with
  | zero => rfl
  | succ k ih =>
    unfold ctrBytesAux
    rw [List.length_append, blockBytes_length, ih]
    ring

theorem keystreamBytes_length (rks : List (List Nat)) (j0 len : Nat) :
    (keystreamBytes rks j0 len).length = len := by
  unfold keystreamBytes
  rw [List.length_take, ctrBytesAux_length]
  have := Nat.div_add_mod (len + 15) 16
  have h2 : (len + 15) % 16 < 16 := Nat.mod_lt _ (by norm_num)
  omega

theorem mem_ctrBytesAux_lt {rks : List (List Nat)} {ctr k b : Nat}
    (h : b ∈ ctrBytesAux rks ctr k) : b < 256 := by
  induction k generalizing ctr with
  | zero => exact absurd h (by simp [ctrBytesAux])
  | succ k ih =>
    unfold ctrBytesAux at h
    rcases List.mem_append.mp h with h1 | h1
    · exact mem_blockBytes_lt h1
    · exact ih h1

theorem mem_keystreamBytes_lt {rks : List (List Nat)} {j0 len b : Nat}
    (h : b ∈ keystreamBytes rks j0 len) : b < 256 :=
  mem_ctrBytesAux_lt (List.take_subset _ _ h)

theorem ctrCrypt_length (rks : List (List Nat)) (j0 : Nat) (msg : List Nat) :
    (ctrCrypt rks j0 msg).length = msg.length := by
  unfold ctrCrypt xorBytes
  rw [List.length_zipWith, keystreamBytes_length, Nat.min_self]

theorem mem_ctrCrypt_lt {rks : List (List Nat)} {j0 : Nat} {msg : List Nat}
    (hmsg : ∀ b ∈ msg, b < 256) : ∀ b ∈ ctrCrypt rks j0 msg, b < 256 := by
  have hgen : ∀ (ms ks : List Nat), (∀ b ∈ ms, b < 256) → (∀ b ∈ ks, b < 256) →
      ∀ b ∈ List.zipWith Nat.xor ms ks, b < 256 := by
    intro ms
    induction ms with
    | nil => intro ks _ _ b hb; exact absurd hb (by simp)
    | cons m ms ih =>
      intro ks hms hks b hb
      cases ks with
      | nil => exact absurd hb (by simp)
      | cons k ks =>
        simp only [List.zipWith_cons_cons, List.mem_cons] at hb
        rcases hb with hb | hb
        · rw [hb]
          have h1 : m < 2 ^ 8 := hms m (List.mem_cons_self _ _)
          have h2 : k < 2 ^ 8 := hks k (List.mem_cons_self _ _)
          exact Nat.xor_lt_two_pow h1 h2
        · exact ih ks (fun x hx => hms x (List.mem_cons_of_mem _ hx))
            (fun x hx => hks x (List.mem_cons_of_mem _ hx)) b hb
  exact hgen msg _ hmsg (fun x hx => mem_keystreamBytes_lt hx)

theorem zipWith_xor_cancel : ∀ (ms ks : List Nat), ks.length = ms.length →
    List.zipWith Nat.xor (List.zipWith Nat.xor ms ks) ks = ms := by
  intro ms
  induction ms with
  | nil => intro ks _; simp
  | cons m ms ih =>
    intro ks hlen
    cases ks with
    | nil => exact absurd hlen (by simp)
    | cons k ks =>
      simp only [List.zipWith_cons_cons]
      have hx : Nat.xor (Nat.xor m k) k = m := Nat.xor_cancel_right k m
      rw [hx, ih ks (by simpa using hlen)]

/-- CTR decryption undoes CTR encryption: the keystream depends only on the
message length, which the ciphertext preserves. -/
theorem ctrCrypt_involutive (rks : List (List Nat)) (j0 : Nat) (msg : List Nat) :
    ctrCrypt rks j0 (ctrCrypt rks j0 msg) = msg := by
  unfold ctrCrypt xorBytes
  have hlen2 : (List.zipWith Nat.xor msg (keystreamBytes rks j0 msg.length)).length
      = msg.length := by
    rw [List.length_zipWith, keystreamBytes_length, Nat.min_self]
  rw [hlen2]
  exact zipWith_xor_cancel msg _ (keystreamBytes_length rks j0 msg.length)

theorem charToVal_b64char : ∀ v, v < 64 → charToVal (b64char v) = some v := by
  decide

theorem charToVal_pad : charToVal '=' = none := by
  decide

theorem b64char_mem (v : Nat) : b64char v ∈ b64Alphabet := by
  by_cases hv : v < 64
  · have h : ∀ w, w < 64 → b64char w ∈ b64Alphabet := by decide
    exact h v hv
  · have hlen : b64Alphabet.length = 64 := by decide
    have h : b64char v = 'A' := by
      unfold b64char
      rw [List.getD_eq_getElem?_getD, List.getElem?_eq_none (by omega)]
      rfl
    rw [h]
    decide

theorem mem_b64encode : ∀ (bs : List Nat) (c : Char), c ∈ b64encode bs →
    c ∈ b64Alphabet ∨ c = '='
  | [], c, h => absurd h (by simp [b64encode])
  | [b0], c, h => by
    simp only [b64encode, List.mem_cons, List.not_mem_nil, or_false] at h
    rcases h with h | h | h | h
    · exact Or.inl (h ▸ b64char_mem _)
    · exact Or.inl (h ▸ b64char_mem _)
    · exact Or.inr h
    · exact Or.inr h
  | [b0, b1], c, h => by
    simp only [b64encode, List.mem_cons, List.not_mem_nil, or_false] at h
    rcases h with h | h | h | h
    · exact Or.inl (h ▸ b64char_mem _)
    · exact Or.inl (h ▸ b64char_mem _)
    · exact Or.inl (h ▸ b64char_mem _)
    · exact Or.inr h
  | b0 :: b1 :: b2 :: rest, c, h => by
    simp only [b64encode, List.mem_cons] at h
    rcases h with h | h | h | h | h
    · exact Or.inl (h ▸ b64char_mem _)
    · exact Or.inl (h ▸ b64char_mem _)
    · exact Or.inl (h ▸ b64char_mem _)
    · exact Or.inl (h ▸ b64char_mem _)
    · exact mem_b64encode rest c h

theorem noDot_b64encode {bs : List Nat} (h : ('.' : Char) ∈ b64encode bs) : False := by
  rcases mem_b64encode bs '.' h with h1 | h1
  · exact absurd h1 (by decide)
  · exact absurd h1 (by decide)

theorem b64encode_ne_nil : ∀ {bs : List Nat}, bs ≠ [] → b64encode bs ≠ []
  | [], h => absurd rfl h
  | [_], _ => by simp [b64encode]
  | [_, _], _ => by simp [b64encode]
  | _ :: _ :: _ :: _, _ => by simp [b64encode]

theorem b64_roundtrip : ∀ (bs : List Nat), (∀ b ∈ bs, b < 256) →
    b64decode (b64encode bs) = bs
  | [], _ => rfl
  | [b0], h => by
    have h0 : b0 < 256 := h b0 (by simp)
    have e0 := charToVal_b64char (b0 / 4) (by omega)
    have e1 := charToVal_b64char (b0 % 4 * 16) (by omega)
    simp only [b64decode, b64encode, List.filterMap_cons, e0, e1, charToVal_pad,
      List.filterMap_nil, b64decodeVals]
    have : b0 / 4 * 4 + b0 % 4 * 16 / 16 = b0 := by omega
    rw [this]
  | [b0, b1], h => by
    have h0 : b0 < 256 := h b0 (by simp)
    have h1 : b1 < 256 := h b1 (by simp)
    have e0 := charToVal_b64char (b0 / 4) (by omega)
    have e1 := charToVal_b64char (b0 % 4 * 16 + b1 / 16) (by omega)
    have e2 := charToVal_b64char (b1 % 16 * 4) (by omega)
    simp only [b64decode, b64encode, List.filterMap_cons, e0, e1, e2, charToVal_pad,
      List.filterMap_nil, b64decodeVals]
    have q0 : (b0 / 4) * 4 + (b0 % 4 * 16 + b1 / 16) / 16 = b0 := by omega
    have q1 : (b0 % 4 * 16 + b1 / 16) % 16 * 16 + b1 % 16 * 4 / 4 = b1 := by omega
    rw [q0, q1]
  | b0 :: b1 :: b2 :: rest, h => by
    have h0 : b0 < 256 := h b0 (by simp)
    have h1 : b1 < 256 := h b1 (by simp)
    have h2 : b2 < 256 := h b2 (by simp)
    have e0 := charToVal_b64char (b0 / 4) (by omega)
    have e1 := charToVal_b64char (b0 % 4 * 16 + b1 / 16) (by omega)
    have e2 := charToVal_b64char (b1 % 16 * 4 + b2 / 64) (by omega)
    have e3 := charToVal_b64char (b2 % 64) (by omega)
    have ih := b64_roundtrip rest (fun b hb => h b (by simp [hb]))
    simp only [b64decode, b64encode, List.filterMap_cons, e0, e1, e2, e3] at ih ⊢
    simp only [b64decodeVals]
    have q0 : (b0 / 4) * 4 + (b0 % 4 * 16 + b1 / 16) / 16 = b0 := by omega
    have q1 : (b0 % 4 * 16 + b1 / 16) % 16 * 16 + (b1 % 16 * 4 + b2 / 64) / 4 = b1 := by
      omega
    have q2 : (b1 % 16 * 4 + b2 / 64) % 4 * 64 + b2 % 64 = b2 := by omega
    rw [q0, q1, q2, ih]

theorem splitOnDot_noDot : ∀ (a : List Char), ('.' : Char) ∉ a → splitOnDot a = [a]
  | [], _ => rfl
  | c :: rest, h => by
    have hc : ¬(c = '.') := fun he => h (he ▸ List.mem_cons_self _ _)
    have ih := splitOnDot_noDot rest (fun hm => h (List.mem_cons_of_mem _ hm))
    simp [splitOnDot, hc, ih]

theorem splitOnDot_append : ∀ (a rest : List Char), ('.' : Char) ∉ a →
    splitOnDot (a ++ '.' :: rest) = a :: splitOnDot rest
  | [], rest, _ => by simp [splitOnDot]
  | c :: a, rest, h => by
    have hc : ¬(c = '.') := fun he => h (he ▸ List.mem_cons_self _ _)
    have ih := splitOnDot_append a rest (fun hm => h (List.mem_cons_of_mem _ hm))
    simp [splitOnDot, hc, ih]

theorem encryptSecret_form (key iv pt : List Nat) :
    encryptSecret key iv pt
      = b64encode iv
        ++ '.' :: (b64encode (gcmTag (roundKeys key) (computeJ0 (roundKeys key) iv)
              (ctrCrypt (roundKeys key) (computeJ0 (roundKeys key) iv) pt))
        ++ '.' :: b64encode (ctrCrypt (roundKeys key) (computeJ0 (roundKeys key) iv) pt)) := by
  simp [encryptSecret, List.append_assoc]

theorem splitOnDot_encryptSecret (key iv pt : List Nat) (hiv : iv ≠ []) (hpt : pt ≠ []) :
    splitOnDot (encryptSecret key iv pt)
      = [b64encode iv,
         b64encode (gcmTag (roundKeys key) (computeJ0 (roundKeys key) iv)
           (ctrCrypt (roundKeys key) (computeJ0 (roundKeys key) iv) pt)),
         b64encode (ctrCrypt (roundKeys key) (computeJ0 (roundKeys key) iv) pt)] := by
  rw [encryptSecret_form,
    splitOnDot_append _ _ (fun hm => noDot_b64encode hm),
    splitOnDot_append _ _ (fun hm => noDot_b64encode hm),
    splitOnDot_noDot _ (fun hm => noDot_b64encode hm)]

/-- Open recovers what Seal produced, for every non-empty byte string,
every 12-byte IV and every 32-byte key. -/
theorem decryptSecret_encryptSecret (key iv pt : List Nat)
    (hkeyLen : key.length = 32) (hkeyB : ∀ b ∈ key, b < 256)
    (hivLen : iv.length = 12) (hivB : ∀ b ∈ iv, b < 256)
    (hpt : pt ≠ []) (hptB : ∀ b ∈ pt, b < 256) :
    decryptSecret key (encryptSecret key iv pt) = .ok pt := by
  have hivne : iv ≠ [] := by
    intro h
    rw [h] at hivLen
    simp at hivLen
  have hctB : ∀ b ∈ ctrCrypt (roundKeys key) (computeJ0 (roundKeys key) iv) pt, b < 256 :=
    mem_ctrCrypt_lt hptB
  have hctne : ctrCrypt (roundKeys key) (computeJ0 (roundKeys key) iv) pt ≠ [] := by
    intro h
    have := ctrCrypt_length (roundKeys key) (computeJ0 (roundKeys key) iv) pt
    rw [h] at this
    exact hpt (List.length_eq_zero.mp this.symm)
  have htagB : ∀ b ∈ gcmTag (roundKeys key) (computeJ0 (roundKeys key) iv)
      (ctrCrypt (roundKeys key) (computeJ0 (roundKeys key) iv) pt), b < 256 :=
    fun b hb => mem_blockBytes_lt hb
  have htagne : gcmTag (roundKeys key) (computeJ0 (roundKeys key) iv)
      (ctrCrypt (roundKeys key) (computeJ0 (roundKeys key) iv) pt) ≠ [] := by
    intro h
    have : (gcmTag (roundKeys key) (computeJ0 (roundKeys key) iv)
        (ctrCrypt (roundKeys key) (computeJ0 (roundKeys key) iv) pt)).length = 16 :=
      blockBytes_length _
    rw [h] at this
    simp at this
  have hf1 : (b64encode iv).isEmpty = false :=
    Bool.eq_false_iff.mpr (by rw [ne_eq, List.isEmpty_iff]; exact b64encode_ne_nil hivne)
  have hf2 : (b64encode (gcmTag (roundKeys key) (computeJ0 (roundKeys key) iv)
      (ctrCrypt (roundKeys key) (computeJ0 (roundKeys key) iv) pt))).isEmpty = false :=
    Bool.eq_false_iff.mpr (by rw [ne_eq, List.isEmpty_iff]; exact b64encode_ne_nil htagne)
  have hf3 : (b64encode (ctrCrypt (roundKeys key) (computeJ0 (roundKeys key) iv) pt)).isEmpty
      = false :=
    Bool.eq_false_iff.mpr (by rw [ne_eq, List.isEmpty_iff]; exact b64encode_ne_nil hctne)
  unfold decryptSecret
  rw [splitOnDot_encryptSecret key iv pt hivne hpt]
  simp only [List.getD_eq_getElem?_getD, List.getElem?_cons_zero, List.getElem?_cons_succ,
    Option.getD_some]
  rw [if_neg (by rw [hf1, hf2, hf3]; simp)]
  rw [b64_roundtrip iv hivB, b64_roundtrip _ htagB, b64_roundtrip _ hctB]
  rw [if_pos (by exact beq_self_eq_true _)]
  rw [ctrCrypt_involutive]

/-- Open throws on any payload in which one of the first three dot-separated
segments is missing or empty. -/
theorem decryptSecret_malformed (key : List Nat) (payload : List Char)
    (h : (splitOnDot payload).getD 0 [] = [] ∨ (splitOnDot payload).getD 1 [] = []
      ∨ (splitOnDot payload).getD 2 [] = []) :
    decryptSecret key payload = .error invalidPayloadMsg := by
  unfold decryptSecret
  rcases h with h | h | h <;> rw [if_pos (by rw [h]; simp)]

/-- Open throws when the tag segment decodes to different bytes than the tag
of the (iv, ciphertext) pair it accompanies. -/
theorem decryptSecret_tag_mismatch (key : List Nat) (s1 s2 s3 : List Char)
    (h1 : ('.' : Char) ∉ s1) (h2 : ('.' : Char) ∉ s2) (h3 : ('.' : Char) ∉ s3)
    (hn1 : s1 ≠ []) (hn2 : s2 ≠ []) (hn3 : s3 ≠ [])
    (hne : b64decode s2
      ≠ gcmTag (roundKeys key) (computeJ0 (roundKeys key) (b64decode s1)) (b64decode s3)) :
    decryptSecret key (s1 ++ '.' :: (s2 ++ '.' :: s3)) = .error authFailMsg := by
  unfold decryptSecret
  rw [splitOnDot_append _ _ h1, splitOnDot_append _ _ h2, splitOnDot_noDot _ h3]
  simp only [List.getD_eq_getElem?_getD, List.getElem?_cons_zero, List.getElem?_cons_succ,
    Option.getD_some]
  have hf1 : s1.isEmpty = false :=
    Bool.eq_false_iff.mpr (by rw [ne_eq, List.isEmpty_iff]; exact hn1)
  have hf2 : s2.isEmpty = false :=
    Bool.eq_false_iff.mpr (by rw [ne_eq, List.isEmpty_iff]; exact hn2)
  have hf3 : s3.isEmpty = false :=
    Bool.eq_false_iff.mpr (by rw [ne_eq, List.isEmpty_iff]; exact hn3)
  rw [if_neg (by rw [hf1, hf2, hf3]; simp)]
  rw [if_neg (by
    intro hbeq
    exact hne (beq_iff_eq.mp hbeq).symm)]

/-- C8 as amended: under any 32-byte key, Open(Seal(x)) = x for every
NON-EMPTY UTF-8 plaintext (the sealed form being the three base64 segments
iv.tag.ciphertext); Open throws when any of the three segments is missing
or empty (in particular Seal of the empty string never reopens, its third
segment being empty); and Open throws when the tag segment decodes to bytes
other than the tag of the accompanying iv and ciphertext.  Base64-level
corruption that decodes to the same bytes (unused trailing bits, padding)
is accepted, so corruption of a segment does not always fail. -/
theorem c8_seal_open_amended :
    (∀ (key iv pt : List Nat),
      key.length = 32 → (∀ b ∈ key, b < 256) →
      iv.length = 12 → (∀ b ∈ iv, b < 256) →
      pt ≠ [] → (∀ b ∈ pt, b < 256) →
      decryptSecret key (encryptSecret key iv pt) = .ok pt)
    ∧ (∀ (key : List Nat) (payload : List Char),
        (splitOnDot payload).getD 0 [] = [] ∨ (splitOnDot payload).getD 1 [] = []
          ∨ (splitOnDot payload).getD 2 [] = [] →
        decryptSecret key payload = .error invalidPayloadMsg)
    ∧ (∀ (key : List Nat) (s1 s2 s3 : List Char),
        ('.' : Char) ∉ s1 → ('.' : Char) ∉ s2 → ('.' : Char) ∉ s3 →
        s1 ≠ [] → s2 ≠ [] → s3 ≠ [] →
        b64decode s2
          ≠ gcmTag (roundKeys key) (computeJ0 (roundKeys key) (b64decode s1)) (b64decode s3) →
        decryptSecret key (s1 ++ '.' :: (s2 ++ '.' :: s3)) = .error authFailMsg) :=
  ⟨decryptSecret_encryptSecret, decryptSecret_malformed, decryptSecret_tag_mismatch⟩

def cxKey : List Nat := List.replicate 32 0

def cxIv : List Nat := List.replicate 12 0

def cxSealed : List Char := encryptSecret cxKey cxIv [65]

/-- cxSealed with one character of its middle (tag) segment changed: the
final pre-padding base64 character of the tag carries four unused bits, so
adding one to its 6-bit value yields a different character that decodes to
the same tag bytes. -/
def cxTampered : List Char :=
  cxSealed.set 38 (b64char ((charToVal (cxSealed.getD 38 ' ')).getD 0 + 1))

set_option maxRecDepth 100000 in
/-- C8 counterexample, refuting two parts of the claim at explicit inputs:
(i) Open(Seal("")) throws — the ciphertext segment of the empty string is
empty, so the round-trip does NOT hold for every UTF-8 string; and
(ii) a stored value whose tag segment is corrupted in one character is still
opened successfully (base64 malleability), so Open does NOT fail on every
corrupted segment. -/
theorem c8_counterexample :
    decryptSecret cxKey (encryptSecret cxKey cxIv []) = .error invalidPayloadMsg
    ∧ cxTampered ≠ cxSealed
    ∧ (splitOnDot cxTampered).getD 0 [] = (splitOnDot cxSealed).getD 0 []
    ∧ (splitOnDot cxTampered).getD 2 [] = (splitOnDot cxSealed).getD 2 []
    ∧ (splitOnDot cxTampered).getD 1 [] ≠ (splitOnDot cxSealed).getD 1 []
    ∧ decryptSecret cxKey cxTampered = .ok [65] :=
  ⟨rfl, by decide, by decide, by decide, by decide, rfl⟩

set_option maxRecDepth 100000 in
/-- Witness for the amended C8 at concrete inputs. -/
theorem c8_seal_open_amended_witness :
    decryptSecret cxKey (encryptSecret cxKey cxIv [65]) = .ok [65]
    ∧ decryptSecret cxKey "nodots".toList = .error invalidPayloadMsg :=
  ⟨c8_seal_open_amended.1 cxKey cxIv [65] (by decide) (by decide) (by decide) (by decide)
      (by decide) (by decide),
   c8_seal_open_amended.2.1 cxKey "nodots".toList (Or.inr (Or.inl (by decide)))⟩

end AIKOL
